import Mathlib

set_option maxHeartbeats 1000000

/-
Verification of the snakecharmer formatter (src/pythonx/formatter.py) against
its natural-language specification.  The Python code is shallowly embedded:
each method of the Formatter class becomes a Lean function of the same name,
dynamic str-or-list return values become the Rendered sum type, and Python
exceptions become Except values.  The external collaborators (the ast parser
and textwrap.fill) are modelled as an oracle parameter and as an explicit
greedy word-wrap, as described at their definitions.
-/

namespace Charmer

/-- Whitespace test matching Python's notion of whitespace for ASCII text
(space, tab, newline, vertical tab, form feed, carriage return). -/
def pyIsSpace (c : Char) : Bool :=
  c == ' ' || c == '\t' || c == '\n' || c == '\x0b' || c == '\x0c' || c == '\r'

/-- Classification used by Formatter.format, line 26 of the source:
comment = line.startswith('#').  A one-character needle makes startswith the
same as testing the first character, and the empty line is not a comment. -/
def isCommentLine (l : String) : Bool :=
  match l.data with
  | [] => false
  | c :: _ => c == '#'

/-- Block segmentation loop of Formatter.format (source lines 25-33).
The current block is carried as its first line b0 plus the remaining
accumulated lines brest (the Python code keeps it as blocks[-1]); a new block
is started exactly when the classification of the incoming line differs from
the classification of the current block's first line. -/
def segGo (b0 : String) (brest : List String) : List String → List (List String)
  | [] => [b0 :: brest]
  | l :: ls =>
    if isCommentLine l = isCommentLine b0 then
      segGo b0 (brest ++ [l]) ls
    else
      (b0 :: brest) :: segGo l [] ls

/-- Segmentation of the input lines into comment/code blocks, embedding the
loop of Formatter.format.  The Python code starts from blocks = [[]], so an
empty input yields the single empty block. -/
def segment : List String → List (List String)
  | [] => [[]]
  | l :: ls => segGo l [] ls

theorem segGo_flatten (ls : List String) : ∀ (b0 : String) (brest : List String),
    (segGo b0 brest ls).flatten = (b0 :: brest) ++ ls := by
  induction ls with
  | nil => intro b0 brest; simp [segGo]
  | cons l ls ih =>
    intro b0 brest
    by_cases h : isCommentLine l = isCommentLine b0
    · simp only [segGo, if_pos h]
      rw [ih]
      simp
    · simp only [segGo, if_neg h, List.flatten_cons]
      rw [ih]
      simp

theorem segment_flatten (lines : List String) : (segment lines).flatten = lines := by
  cases lines with
  | nil => simp [segment]
  | cons l ls => simp [segment, segGo_flatten]

theorem segGo_shape (ls : List String) : ∀ (b0 : String) (brest : List String),
    ∃ rest tail, segGo b0 brest ls = (b0 :: rest) :: tail := by
  induction ls with
  | nil => intro b0 brest; exact ⟨brest, [], rfl⟩
  | cons l ls ih =>
    intro b0 brest
    by_cases h : isCommentLine l = isCommentLine b0
    · simp only [segGo, if_pos h]
      exact ih b0 (brest ++ [l])
    · exact ⟨brest, segGo l [] ls, by simp [segGo, if_neg h]⟩

theorem segGo_chain (ls : List String) : ∀ (b0 : String) (brest : List String),
    List.Chain' (fun a b => isCommentLine (a.headD "") ≠ isCommentLine (b.headD ""))
      (segGo b0 brest ls) := by
  induction ls with
  | nil => intro b0 brest; simp [segGo]
  | cons l ls ih =>
    intro b0 brest
    by_cases h : isCommentLine l = isCommentLine b0
    · simp only [segGo, if_pos h]
      exact ih b0 (brest ++ [l])
    · simp only [segGo, if_neg h]
      rw [List.chain'_cons']
      refine ⟨?_, ih l []⟩
      intro y hy
      obtain ⟨rest, tail, heq⟩ := segGo_shape ls l []
      rw [heq] at hy
      simp at hy
      subst hy
      simp
      exact fun hc => h (hc.symm)

theorem segGo_uniform (ls : List String) : ∀ (b0 : String) (brest : List String),
    (∀ x ∈ brest, isCommentLine x = isCommentLine b0) →
    ∀ b ∈ segGo b0 brest ls,
      b ≠ [] ∧ ∀ x ∈ b, isCommentLine x = isCommentLine (b.headD "") := by
  induction ls with
  | nil =>
    intro b0 brest hb b hmem
    simp [segGo] at hmem
    subst hmem
    refine ⟨by simp, ?_⟩
    intro x hx
    simp at hx ⊢
    rcases hx with hx | hx
    · subst hx; rfl
    · exact hb x hx
  | cons l ls ih =>
    intro b0 brest hb b hmem
    by_cases h : isCommentLine l = isCommentLine b0
    · simp only [segGo, if_pos h] at hmem
      refine ih b0 (brest ++ [l]) ?_ b hmem
      intro x hx
      simp at hx
      rcases hx with hx | hx
      · exact hb x hx
      · subst hx; exact h
    · simp only [segGo, if_neg h] at hmem
      rw [List.mem_cons] at hmem
      rcases hmem with hmem | hmem
      · subst hmem
        refine ⟨by simp, ?_⟩
        intro x hx
        simp at hx ⊢
        rcases hx with hx | hx
        · subst hx; rfl
        · exact hb x hx
      · exact ih l [] (by simp) b hmem

/-- C3.  The block segmenter partitions the input: concatenating all blocks in
order reproduces the input exactly (no line dropped, duplicated or reordered),
each block of a nonempty input is a nonempty run of lines sharing one
comment/code classification, and adjacent blocks carry different
classifications, so every block is a maximal run. -/
theorem spec_c3 (lines : List String) :
    (segment lines).flatten = lines ∧
    List.Chain' (fun a b => isCommentLine (a.headD "") ≠ isCommentLine (b.headD ""))
      (segment lines) ∧
    (lines ≠ [] → ∀ b ∈ segment lines,
      b ≠ [] ∧ ∀ x ∈ b, isCommentLine x = isCommentLine (b.headD "")) := by
  refine ⟨segment_flatten lines, ?_, ?_⟩
  · cases lines with
    | nil => simp [segment]
    | cons l ls => exact segGo_chain ls l []
  · intro hne b hmem
    cases lines with
    | nil => exact absurd rfl hne
    | cons l ls => exact segGo_uniform ls l [] (by simp) b hmem

/-- Witness for C3 at a concrete input: the two-block segmentation of a
comment line followed by two code lines. -/
theorem spec_c3_witness :
    (["#a", "x", "y"] : List String) ≠ [] ∧
    (segment ["#a", "x", "y"]).flatten = ["#a", "x", "y"] ∧
    (["x", "y"] ≠ [] ∧
      ∀ x ∈ (["x", "y"] : List String),
        isCommentLine x = isCommentLine ((["x", "y"] : List String).headD "")) := by
  have h := spec_c3 ["#a", "x", "y"]
  refine ⟨by decide, h.1, h.2.2 (by decide) ["x", "y"] ?_⟩
  have hseg : segment ["#a", "x", "y"] = [["#a"], ["x", "y"]] := by decide
  rw [hseg]
  decide

/-- C10.  A blank line is always classified as a code line: the classifier
rejects the empty string, every comment block is free of blank lines, and a
blank line between two comment lines splits them into three blocks. -/
theorem spec_c10 :
    (isCommentLine "" = false) ∧
    (∀ (lines : List String) (b : List String), b ∈ segment lines →
      isCommentLine (b.headD "") = true → ∀ x ∈ b, x ≠ "") ∧
    (∀ c1 c2 : String, isCommentLine c1 = true → isCommentLine c2 = true →
      segment [c1, "", c2] = [[c1], [""], [c2]]) := by
  refine ⟨by decide, ?_, ?_⟩
  · intro lines b
    cases lines with
    | nil =>
      intro hmem hcomment x hx
      simp [segment] at hmem
      subst hmem
      simp at hx
    | cons l ls =>
      intro hmem hcomment x hx
      have h := segGo_uniform ls l [] (by simp) b hmem
      intro hx0
      subst hx0
      have h2 := h.2 "" hx
      rw [hcomment] at h2
      exact absurd h2.symm (by decide)
  · intro c1 c2 h1 h2
    have hb : isCommentLine "" = false := by decide
    simp only [segment, segGo, hb, h1, h2]
    simp

/-- Witness for C10 at concrete comment lines around a blank line. -/
theorem spec_c10_witness :
    isCommentLine "#a" = true ∧ isCommentLine "#b" = true ∧
    segment ["#a", "", "#b"] = [["#a"], [""], ["#b"]] := by
  exact ⟨by decide, by decide, spec_c10.2.2 "#a" "#b" (by decide) (by decide)⟩

/-- Errors raised inside the Formatter methods themselves: AttributeError
(missing attribute such as .id on a non-Name node), IndexError (subscript of
an empty sequence), TypeError (str.join over a list element), ValueError
(textwrap.fill with a non-positive width) and the explicit Exception raised
by Formatter.parse for a node kind with no handler.  None of these is a
SyntaxError, which mirrors the fact that no Formatter method ever raises
SyntaxError in the source. -/
inductive RErr where
  | attributeErr
  | indexErr
  | typeErr
  | valueErr
  | unhandled (kind : String)
deriving DecidableEq, Repr

deriving instance DecidableEq for Except

/-- Prefix match on character lists: returns the remainder of the second list
after removing the first list as a prefix, if it is one. -/
def dropPat : List Char → List Char → Option (List Char)
  | [], s => some s
  | _ :: _, [] => none
  | p :: ps, c :: cs => if p = c then dropPat ps cs else none

/-- Single left-to-right pass of Python str.replace(pat, '') for a nonempty
pattern: each non-overlapping occurrence is removed and scanning resumes
after the removed text.  The fuel argument only bounds the recursion; any
fuel of at least the list length gives the untruncated behaviour since every
step consumes at least one character. -/
def replAux (p : List Char) : Nat → List Char → List Char
  | _, [] => []
  | 0, s => s
  | fuel + 1, c :: cs =>
    match dropPat p (c :: cs) with
    | some rest => replAux p fuel rest
    | none => c :: replAux p fuel cs

/-- Embedding of Python x.replace(token, '') as used on source line 71:
every non-overlapping occurrence of pat is deleted in one left-to-right
pass.  Python treats an empty pattern specially; with replacement '' the
result is then the unchanged string. -/
def pyReplaceDel (s pat : String) : String :=
  match pat.data with
  | [] => s
  | p :: ps => String.mk (replAux (p :: ps) s.data.length s.data)

/-- Maximal runs of non-whitespace characters, accumulating the current word
in reverse.  This is how textwrap splits text into word chunks once
replace_whitespace has mapped every whitespace character to a space. -/
def splitWordsAux : List Char → List Char → List String
  | [], [] => []
  | a :: as, [] => [String.mk (a :: as).reverse]
  | [], c :: cs =>
    if pyIsSpace c then splitWordsAux [] cs else splitWordsAux [c] cs
  | a :: as, c :: cs =>
    if pyIsSpace c then String.mk (a :: as).reverse :: splitWordsAux [] cs
    else splitWordsAux (c :: a :: as) cs

/-- Whitespace-delimited words of a string. -/
def splitWords (s : String) : List String :=
  splitWordsAux [] s.data

/-- Greedy fill loop of textwrap: keep appending the next word (costing one
separating space plus the word) while the line stays within width, else emit
the line and start a new one with the indent.  Words longer than the free
width are kept whole on their own line; real textwrap with its default
break_long_words=True would split such a word, a case none of the concrete
inputs below exercises. -/
def wrapAux (width : Int) (indent : String) (curLine : String) (curLen : Int) :
    List String → List String
  | [] => [curLine]
  | w :: ws =>
    if curLen + 1 + (w.length : Int) ≤ width then
      wrapAux width indent (curLine ++ " " ++ w) (curLen + 1 + (w.length : Int)) ws
    else
      curLine :: wrapAux width indent (indent ++ w) ((indent.length : Int) + (w.length : Int)) ws

/-- Greedy word wrap with the same indent for the first and subsequent lines,
the configuration format_comments passes to textwrap.fill. -/
def wrapWords (width : Int) (indent : String) : List String → List String
  | [] => []
  | w :: ws => wrapAux width indent (indent ++ w) ((indent.length : Int) + (w.length : Int)) ws

/-- Formatter.format_comments (source lines 60-82): strip the token from all
lines via str.replace(token, ''), join the lines with newlines, fill to the
width with the token as initial and subsequent indent, and return the split
result.  textwrap.fill raises ValueError for a non-positive width; filling
no words yields the empty string whose split is the single empty line.  The
join-then-split round trip of fill is folded away since no produced line
contains a newline. -/
def format_comments (token : String) (lines : List String) (width : Int) :
    Except RErr (List String) :=
  let stripped := if token ≠ "" then lines.map (fun x => pyReplaceDel x token) else lines
  if width ≤ 0 then
    .error .valueErr
  else
    let wrapped := wrapWords width token (splitWords ("\n".intercalate stripped))
    .ok (if wrapped.isEmpty then [""] else wrapped)

/-- Modelled from the spec claim C5, for comparison only: the variant of
format_comments that removes just the FIRST occurrence of the token from
each line and keeps later occurrences. -/
def replFirstAux (p : List Char) : Nat → List Char → List Char
  | _, [] => []
  | 0, s => s
  | fuel + 1, c :: cs =>
    match dropPat p (c :: cs) with
    | some rest => rest
    | none => c :: replFirstAux p fuel cs

/-- Modelled from the spec claim C5: deletion of only the first literal
occurrence of pat. -/
def pyReplaceFirstDel (s pat : String) : String :=
  match pat.data with
  | [] => s
  | p :: ps => String.mk (replFirstAux (p :: ps) s.data.length s.data)

/-- Modelled from the spec claim C5: format_comments as the claim describes
it, stripping only the first token occurrence per line. -/
def format_commentsSpecFirst (token : String) (lines : List String) (width : Int) :
    Except RErr (List String) :=
  let stripped := if token ≠ "" then lines.map (fun x => pyReplaceFirstDel x token) else lines
  if width ≤ 0 then
    .error .valueErr
  else
    let wrapped := wrapWords width token (splitWords ("\n".intercalate stripped))
    .ok (if wrapped.isEmpty then [""] else wrapped)

/-- Counterexample to C5 as stated: on the line "# a # b" the code removes
BOTH occurrences of the token "# " (the output line is "# a b"), while the
claim predicts that the second occurrence is kept (output "# a # b", as the
first-occurrence variant produces). -/
theorem spec_c5_counterexample :
    pyReplaceDel "# a # b" "# " = "a b" ∧
    pyReplaceFirstDel "# a # b" "# " = "a # b" ∧
    format_comments "# " ["# a # b"] 79 = .ok ["# a b"] ∧
    format_commentsSpecFirst "# " ["# a # b"] 79 = .ok ["# a # b"] ∧
    format_comments "# " ["# a # b"] 79 ≠ format_commentsSpecFirst "# " ["# a # b"] 79 := by
  refine ⟨by decide, by decide, by decide, by decide, by decide⟩

theorem replAux_cons_none (p0 : Char) (ps : List Char) (fuel : Nat) (c : Char) (cs : List Char)
    (hd : dropPat (p0 :: ps) (c :: cs) = none) :
    replAux (p0 :: ps) (fuel + 1) (c :: cs) = c :: replAux (p0 :: ps) fuel cs := by
  simp [replAux, hd]

theorem replAux_hash_space (fuel : Nat) (m : List Char) :
    replAux ['#', ' '] (fuel + 1) ('#' :: ' ' :: m) = replAux ['#', ' '] fuel m := by
  simp [replAux, dropPat]

theorem replAux_clean (l : List Char) :
    ∀ (fuel : Nat) (m : List Char), (∀ c ∈ l, c ≠ '#') →
    (l ++ m).length ≤ fuel →
    replAux ['#', ' '] fuel (l ++ m) = l ++ replAux ['#', ' '] (fuel - l.length) m := by
  induction l with
  | nil => intro fuel m hcl hf; simp
  | cons c l ih =>
    intro fuel m hcl hf
    have hc : c ≠ '#' := hcl c (by simp)
    have hf1 : ∃ f, fuel = f + 1 := by
      cases fuel with
      | zero => simp at hf
      | succ f => exact ⟨f, rfl⟩
    obtain ⟨f, rfl⟩ := hf1
    have hd : dropPat ['#', ' '] (c :: (l ++ m)) = none := by
      simp only [dropPat]
      rw [if_neg (fun he => hc he.symm)]
    rw [List.cons_append, replAux_cons_none '#' [' '] f c (l ++ m) hd]
    rw [ih f m (fun x hx => hcl x (by simp [hx])) (by simp only [List.length_cons, List.length_append] at hf ⊢; omega)]
    have harith : f + 1 - (c :: l).length = f - l.length := by simp only [List.length_cons]; omega
    rw [harith]
    simp

theorem replAux_no_occ (l : List Char) (fuel : Nat) (hcl : ∀ c ∈ l, c ≠ '#')
    (hf : l.length ≤ fuel) : replAux ['#', ' '] fuel l = l := by
  have h := replAux_clean l fuel [] hcl (by simpa using hf)
  cases hfe : fuel - l.length <;> simpa [hfe, replAux] using h

/-- C5 amended.  With the token "# ", every left-to-right non-overlapping
occurrence of the token in a line is removed, not only the first one:
a line built around two token occurrences with hash-free text elsewhere is
stripped to the concatenation of the three text parts, and format_comments
then wraps exactly that fully stripped text. -/
theorem spec_c5 (a u v : String)
    (ha : ∀ c ∈ a.data, c ≠ '#') (hu : ∀ c ∈ u.data, c ≠ '#') (hv : ∀ c ∈ v.data, c ≠ '#') :
    pyReplaceDel (a ++ "# " ++ u ++ "# " ++ v) "# " = a ++ u ++ v ∧
    ∀ width : Int, 0 < width →
      format_comments "# " [a ++ "# " ++ u ++ "# " ++ v] width =
        .ok (if (wrapWords width "# " (splitWords (a ++ u ++ v))).isEmpty then [""]
             else wrapWords width "# " (splitWords (a ++ u ++ v))) := by
  have hdata : (a ++ "# " ++ u ++ "# " ++ v).data =
      a.data ++ ('#' :: ' ' :: (u.data ++ ('#' :: ' ' :: v.data))) := by
    simp [String.data_append]
  have hmk : pyReplaceDel (a ++ "# " ++ u ++ "# " ++ v) "# " =
      String.mk (replAux ['#', ' '] (a ++ "# " ++ u ++ "# " ++ v).data.length
        (a ++ "# " ++ u ++ "# " ++ v).data) := rfl
  have hmain : pyReplaceDel (a ++ "# " ++ u ++ "# " ++ v) "# " = a ++ u ++ v := by
    rw [hmk, hdata]
    have hlen1 : (a.data ++ ('#' :: ' ' :: (u.data ++ ('#' :: ' ' :: v.data)))).length =
        a.data.length + u.data.length + v.data.length + 4 := by
      simp only [List.length_append, List.length_cons]
      omega
    rw [hlen1]
    rw [replAux_clean a.data (a.data.length + u.data.length + v.data.length + 4)
      ('#' :: ' ' :: (u.data ++ ('#' :: ' ' :: v.data))) ha
      (by simp only [List.length_append, List.length_cons]; omega)]
    have harith1 : a.data.length + u.data.length + v.data.length + 4 - a.data.length =
        (u.data.length + v.data.length + 3) + 1 := by omega
    rw [harith1, replAux_hash_space]
    rw [replAux_clean u.data (u.data.length + v.data.length + 3) ('#' :: ' ' :: v.data) hu
      (by simp only [List.length_append, List.length_cons]; omega)]
    have harith2 : u.data.length + v.data.length + 3 - u.data.length =
        (v.data.length + 2) + 1 := by omega
    rw [harith2, replAux_hash_space]
    rw [replAux_no_occ v.data (v.data.length + 2) hv (by omega)]
    have hdeq : (a ++ u ++ v).data = a.data ++ (u.data ++ v.data) := by
      simp [String.data_append]
    rw [show a.data ++ (u.data ++ v.data) = (a ++ u ++ v).data from hdeq.symm]
  refine ⟨hmain, ?_⟩
  intro width hw
  show (if width ≤ 0 then Except.error RErr.valueErr else _) = _
  rw [if_neg (by omega)]
  have hsingle : (if ("# " : String) ≠ "" then
      List.map (fun x => pyReplaceDel x "# ") [a ++ "# " ++ u ++ "# " ++ v]
      else [a ++ "# " ++ u ++ "# " ++ v]) = [a ++ u ++ v] := by
    rw [if_pos (by decide)]
    simp only [List.map_cons, List.map_nil]
    rw [hmain]
  rw [hsingle]
  rfl

/-- Witness for C5 amended at concrete strings: both token occurrences in
"x # y# z" are removed and the wholly stripped text "x yz" is wrapped. -/
theorem spec_c5_witness :
    (∀ c ∈ ("x " : String).data, c ≠ '#') ∧
    pyReplaceDel ("x " ++ "# " ++ "y" ++ "# " ++ "z") "# " = "x " ++ "y" ++ "z" ∧
    format_comments "# " ["x " ++ "# " ++ "y" ++ "# " ++ "z"] 10 = .ok ["# x yz"] := by
  have h := spec_c5 "x " "y" "z" (by decide) (by decide) (by decide)
  refine ⟨by decide, h.1, (h.2 10 (by decide)).trans ?_⟩
  decide

/-- Constants of the language handled by handle_nameconstant. -/
inductive PyConst where
  | pyTrue
  | pyFalse
  | pyNone
deriving DecidableEq, Repr

/-- Rendering of a constant, as Python str() produces it. -/
def PyConst.toStr : PyConst → String
  | .pyTrue => "True"
  | .pyFalse => "False"
  | .pyNone => "None"

/-- Syntax-tree nodes as delivered by the external ast parser, restricted to
the classes the source dispatches on (the class name, lowercased, selects the
handle_ method); every other class is collapsed into the other constructor,
for which Formatter.parse finds no handler.  Numeric literals carry their
integer value; call nodes carry the pre-Python-3.5 ast shape with starargs
and kwargs fields that the source reads; keyword arguments carry their arg
name and value; import names carry the name and the optional asname. -/
inductive Node where
  | assign (targets : List Node) (value : Node)
  | call (func : Node) (args : List Node) (keywords : List (String × Node))
      (starargs : Option Node) (kwargs : Option Node)
  | num (n : Int)
  | nameconstant (v : PyConst)
  | expr (value : Node)
  | dict (keys : List Node) (values : List Node)
  | str (s : String)
  | name (id : String)
  | list (elts : List Node)
  | tuple (elts : List Node)
  | set (elts : List Node)
  | importfrom (module : Option String) (names : List (String × Option String))
  | importStmt (names : List (String × Option String))
  | other (kind : String)

/-- Value returned by a handler: Python's dynamic typing lets a handler
return either a plain str (the primitive handlers) or a list of lines (the
multi-line handlers), and the callers behave differently on the two. -/
inductive Rendered where
  | str (s : String)
  | lines (l : List String)
deriving DecidableEq, Repr

/-- Decimal digit character. -/
def digitChar (d : Nat) : Char :=
  Char.ofNat (48 + d)

/-- Decimal digits of a natural number, most significant first; the fuel
bounds the recursion and any fuel above the digit count is enough. -/
def natStrAux : Nat → Nat → List Char
  | 0, _ => []
  | fuel + 1, n => if n < 10 then [digitChar n] else natStrAux fuel (n / 10) ++ [digitChar (n % 10)]

/-- Python str() of an integer, as used by handle_num. -/
def pyIntStr (i : Int) : String :=
  if i < 0 then "-" ++ String.mk (natStrAux (i.natAbs + 1) i.natAbs)
  else String.mk (natStrAux (i.toNat + 1) i.toNat)

/-- Attribute access node.id: succeeds only on a Name node, raising
AttributeError otherwise, as in the genexp of handle_assign and the
node.func.id read of handle_call. -/
def getId : Node → Except RErr String
  | .name id => .ok id
  | _ => .error .attributeErr

/-- Effect of Python ret += value in Formatter.format and handle_assign: a
list extends the result line by line, while a str extends it character by
character, each character becoming its own line. -/
def renderedToLines : Rendered → List String
  | .str s => s.data.map (fun c => String.mk [c])
  | .lines l => l

/-- Python repr of a string, for strings free of quote and escape
characters, the only shapes that reach it below. -/
def pyReprStr (s : String) : String :=
  "'" ++ s ++ "'"

/-- Python repr of a list of strings. -/
def pyReprList (l : List String) : String :=
  "[" ++ String.intercalate ", " (l.map pyReprStr) ++ "]"

/-- Python str.format of one interpolated argument that is either a str
(inserted as is) or a list of lines (inserted as its repr). -/
def pyFormatR : Rendered → String
  | .str s => s
  | .lines l => pyReprList l

/-- Element access of str.join: a str is accepted, a list raises TypeError. -/
def renderedStr : Rendered → Except RErr String
  | .str s => .ok s
  | .lines _ => .error .typeErr

/-- Python sep.join over a list whose elements are str or list values:
the join raises TypeError at the first list element. -/
def pyJoinStrs (sep : String) (xs : List Rendered) : Except RErr String := do
  let ss ← xs.mapM renderedStr
  pure (String.intercalate sep ss)

/-- Last element of a list together with the elements before it. -/
def initLast : List α → Option (List α × α)
  | [] => none
  | x :: xs =>
    match initLast xs with
    | none => some ([], x)
    | some (mid, lst) => some (x :: mid, lst)

/-- Python x[:-1]. -/
def pyDropLast (s : String) : String :=
  String.mk s.data.dropLast

/-- Module prefix of _handle_import: "from {0} ".format(module) when module
is truthy (a present, nonempty module name), nothing otherwise. -/
def importModPart : Option String → String
  | some m => if m = "" then "" else "from " ++ m ++ " "
  | none => ""

/-- Imported-name text of _handle_import: the name, extended with
" as {alias}" when asname is truthy. -/
def importNamePart (nm : String × Option String) : String :=
  match nm.2 with
  | some a => if a = "" then nm.1 else nm.1 ++ " as " ++ a
  | none => nm.1

/-- Formatter._handle_import (source lines 337-353): one output line per
imported name, of the form [from module ]import name[ as alias]; an absent
or empty module and an absent or empty asname contribute nothing, following
Python truthiness. -/
def _handle_import (module : Option String) (names : List (String × Option String)) :
    List String :=
  names.map (fun nm => importModPart module ++ "import " ++ importNamePart nm)

/-- Formatter.handle_import (source lines 276-283). -/
def handle_import (names : List (String × Option String)) (width : Int) :
    Except RErr Rendered :=
  .ok (.lines (_handle_import none names))

/-- Formatter.handle_importfrom (source lines 266-274). -/
def handle_importfrom (module : Option String) (names : List (String × Option String))
    (width : Int) : Except RErr Rendered :=
  .ok (.lines (_handle_import module names))

/-- Formatter.handle_num (source lines 175-183): str(node.n). -/
def handle_num (n : Int) (width : Int) : Except RErr Rendered :=
  .ok (.str (pyIntStr n))

/-- Formatter.handle_nameconstant (source lines 185-193): str(node.value). -/
def handle_nameconstant (v : PyConst) (width : Int) : Except RErr Rendered :=
  .ok (.str v.toStr)

/-- Formatter.handle_str (source lines 235-244): the content wrapped in
double quotes with no escaping. -/
def handle_str (s : String) (width : Int) : Except RErr Rendered :=
  .ok (.str ("\"" ++ s ++ "\""))

/-- Formatter.handle_name (source lines 246-254): the identifier text. -/
def handle_name (id : String) (width : Int) : Except RErr Rendered :=
  .ok (.str id)

theorem Node.sizeOf_pos (n : Node) : 0 < sizeOf n := by
  cases n <;> simp_arith

theorem list_sizeOf_pos {α : Type} [SizeOf α] (l : List α) : 0 < sizeOf l := by
  cases l <;> simp_arith

/-- Construction of ret in handle_assign from the rendered value: value[0]
and value[1:] on a list are its first line and remaining lines, on a str its
first character and remaining characters, each character its own line; both
subscripts raise IndexError on an empty value. -/
def assignFromRendered (targetsJ : String) : Rendered → Except RErr Rendered
  | .lines [] => .error .indexErr
  | .lines (v0 :: rest) => .ok (.lines ((targetsJ ++ " = " ++ v0) :: rest))
  | .str sv =>
    match sv.data with
    | [] => .error .indexErr
    | c :: cs =>
      .ok (.lines ((targetsJ ++ " = " ++ String.mk [c]) :: cs.map (fun ch => String.mk [ch])))

mutual

/-- Formatter.parse (source lines 113-126): dispatch on the node class name;
a kind without a handle_ method raises a plain Exception. -/
def parse : Node → Int → Except RErr Rendered
  | .assign targets value, w => handle_assign targets value w
  | .call f args kws sa ka, w => handle_call f args kws sa ka w
  | .num n, w => handle_num n w
  | .nameconstant v, w => handle_nameconstant v w
  | .expr v, w => handle_expr v w
  | .dict ks vs, w => handle_dict ks vs w
  | .str s, w => handle_str s w
  | .name i, w => handle_name i w
  | .list elts, w => handle_list elts w
  | .tuple elts, w => handle_tuple elts w
  | .set elts, w => handle_set elts w
  | .importfrom m names, w => handle_importfrom m names w
  | .importStmt names, w => handle_import names w
  | .other kind, w => .error (.unhandled kind)
termination_by n w => (sizeOf n, 0)

/-- Formatter.handle_expr (source lines 195-201): pass-through to the inner
expression. -/
def handle_expr (value : Node) (w : Int) : Except RErr Rendered :=
  parse value w
termination_by (sizeOf value, 1)

/-- Formatter.handle_assign (source lines 128-141): join the target ids with
", ", render the value, then build ret = [targets ++ " = " ++ value[0]] and
extend ret with value[1:], which appends lines when the value rendered to a
list but single characters when it rendered to a str. -/
def handle_assign (targets : List Node) (value : Node) (w : Int) : Except RErr Rendered := do
  let tids ← targets.mapM getId
  let v ← parse value w
  assignFromRendered (String.intercalate ", " tids) v
termination_by (sizeOf targets + sizeOf value, 1)
decreasing_by
all_goals simp_wf
all_goals
  (apply Prod.Lex.left
   have ht := list_sizeOf_pos targets
   omega)

/-- Formatter.handle_keyword (source lines 285-294): arg=value with no
spaces; a multi-line value is interpolated by str.format as its repr. -/
def handle_keyword (arg : String) (value : Node) (w : Int) : Except RErr String := do
  let v ← parse value w
  pure (arg ++ "=" ++ pyFormatR v)
termination_by (sizeOf value, 1)

/-- Formatter._handle_stars (source lines 296-314): render the starred
expression; a str result gives one token-prefixed entry, a list result is
spliced with the token on its first line, the trailing comma stripped from
interior lines, and the last line kept as is. -/
def _handle_stars (token : String) (items : Node) (w : Int) : Except RErr (List String) := do
  let targets ← parse items w
  match targets with
  | .str s => pure [token ++ s]
  | .lines l =>
    match l with
    | [] => .error .indexErr
    | t0 :: rest =>
      match initLast rest with
      | none => pure [token ++ t0]
      | some (mid, lst) => pure ((token ++ t0) :: (mid.map pyDropLast ++ [lst]))
termination_by (sizeOf items, 1)

/-- Truthiness guards of handle_call around node.starargs and node.kwargs:
an absent value contributes no entries. -/
def parseStarOpt (token : String) (o : Option Node) (w : Int) : Except RErr (List String) :=
  match o with
  | none => pure []
  | some n => _handle_stars token n w
termination_by (sizeOf o, 2)

/-- Formatter.handle_call (source lines 143-173): build the argument entries
(positional renders, keyword strings, star splices), join them to a single
candidate line, emit it when its length is strictly below the width, else
open paren, one 4-space-indented entry per line with a trailing comma, and
the closing paren alone.  The join raises TypeError when a positional
argument rendered to a list. -/
def handle_call (func : Node) (args : List Node) (keywords : List (String × Node))
    (starargs kwargs : Option Node) (w : Int) : Except RErr Rendered := do
  let fid ← getId func
  let rargs ← parseNodeList args w
  let rkws ← parseKeywordList keywords w
  let star ← parseStarOpt "*" starargs w
  let dstar ← parseStarOpt "**" kwargs w
  let allArgs : List Rendered :=
    rargs ++ rkws.map Rendered.str ++ star.map Rendered.str ++ dstar.map Rendered.str
  let joined ← pyJoinStrs ", " allArgs
  let line := fid ++ "(" ++ joined ++ ")"
  if (line.length : Int) < w then
    pure (Rendered.lines [line])
  else
    pure (Rendered.lines ((fid ++ "(") :: (allArgs.map (fun a => "    " ++ pyFormatR a ++ ",") ++ [")"])))
termination_by (sizeOf func + sizeOf args + sizeOf keywords + sizeOf starargs + sizeOf kwargs, 3)
decreasing_by
all_goals simp_wf
all_goals
  (apply Prod.Lex.left
   have hf := Node.sizeOf_pos func
   omega)

/-- Formatter.handle_dict (source lines 203-233): an empty dict renders as
the brace pair regardless of width; otherwise the key: value items are built
in zip order, joined in braces when strictly below the width, else expanded
one item per line. -/
def handle_dict (keys values : List Node) (w : Int) : Except RErr Rendered :=
  match keys with
  | [] => .ok (.lines ["\x7b\x7d"])
  | k0 :: krest => do
    let items ← parseDictItems (k0 :: krest) values w
    let line := "\x7b" ++ String.intercalate ", " items ++ "\x7d"
    if (line.length : Int) < w then
      pure (Rendered.lines [line])
    else
      pure (Rendered.lines ("\x7b" :: (items.map (fun i => "    " ++ i ++ ",") ++ ["\x7d"])))
termination_by (sizeOf keys + sizeOf values, 1)

/-- Formatter._handle_iterable (source lines 316-335): an empty collection
renders as its token pair; otherwise the elements are rendered, joined in
the tokens when strictly below the width, else expanded one element per
line.  The join raises TypeError when an element rendered to a list. -/
def _handle_iterable (opn cls : String) (items : List Node) (w : Int) : Except RErr Rendered :=
  match items with
  | [] => .ok (.lines [opn ++ cls])
  | i0 :: irest => do
    let ritems ← parseNodeList (i0 :: irest) w
    let joined ← pyJoinStrs ", " ritems
    let line := opn ++ joined ++ cls
    if (line.length : Int) < w then
      pure (Rendered.lines [line])
    else
      pure (Rendered.lines (opn :: (ritems.map (fun i => "    " ++ pyFormatR i ++ ",") ++ [cls])))
termination_by (sizeOf items, 1)

/-- Formatter.handle_list (source lines 256-258). -/
def handle_list (elts : List Node) (w : Int) : Except RErr Rendered :=
  _handle_iterable "[" "]" elts w
termination_by (sizeOf elts, 2)

/-- Formatter.handle_tuple (source lines 260-261). -/
def handle_tuple (elts : List Node) (w : Int) : Except RErr Rendered :=
  _handle_iterable "(" ")" elts w
termination_by (sizeOf elts, 2)

/-- Formatter.handle_set (source lines 263-264). -/
def handle_set (elts : List Node) (w : Int) : Except RErr Rendered :=
  _handle_iterable "\x7b" "\x7d" elts w
termination_by (sizeOf elts, 2)

/-- List-comprehension rendering of positional arguments and collection
elements: each node parsed in order, the first failure propagating. -/
def parseNodeList : List Node → Int → Except RErr (List Rendered)
  | [], _ => .ok []
  | n :: ns, w => do
    let r ← parse n w
    let rest ← parseNodeList ns w
    pure (r :: rest)
termination_by ns w => (sizeOf ns, 0)

/-- List-comprehension rendering of keyword arguments. -/
def parseKeywordList : List (String × Node) → Int → Except RErr (List String)
  | [], _ => .ok []
  | (a, v) :: ks, w => do
    let s ← handle_keyword a v w
    let rest ← parseKeywordList ks w
    pure (s :: rest)
termination_by ks w => (sizeOf ks, 2)

/-- Item loop of handle_dict over zip(keys, values): pairs are consumed in
order and the zip stops at the shorter list. -/
def parseDictItems : List Node → List Node → Int → Except RErr (List String)
  | [], _, _ => .ok []
  | _ :: _, [], _ => .ok []
  | k :: ks, v :: vs, w => do
    let rk ← parse k w
    let rv ← parse v w
    let rest ← parseDictItems ks vs w
    pure ((pyFormatR rk ++ ": " ++ pyFormatR rv) :: rest)
termination_by ks vs w => (sizeOf ks + sizeOf vs, 0)

end

/-- Line shape stated by the specification for one imported name:
[from <module> ]import <name>[ as <alias>], with absent or empty module and
alias parts omitted. -/
def importLine (module : Option String) (nm : String × Option String) : String :=
  importModPart module ++ "import " ++ importNamePart nm

/-- C7.  Every import and import-from statement renders each imported name to
exactly one output line of the stated form: the output has one line per name,
and the handlers ignore the width entirely, so names are never packed onto a
shared line however wide the budget is. -/
theorem spec_c7 (names : List (String × Option String)) (module : Option String)
    (w1 w2 : Int) :
    handle_import names w1 = .ok (.lines (names.map (importLine none))) ∧
    handle_importfrom module names w1 = .ok (.lines (names.map (importLine module))) ∧
    (_handle_import module names).length = names.length ∧
    handle_import names w1 = handle_import names w2 ∧
    handle_importfrom module names w1 = handle_importfrom module names w2 := by
  refine ⟨rfl, rfl, ?_, rfl, rfl⟩
  simp [_handle_import]

/-- C2.  Every multi-element handler (call, list, tuple, set, dict) emits the
joined single-line form exactly when its length is strictly below the width;
a joined line whose length equals the width is expanded to the multi-line
form with the open token alone, one child per line behind four spaces with a
trailing comma, and the close token alone. -/
theorem spec_c2 :
    (∀ (func : Node) (args : List Node) (keywords : List (String × Node))
        (starargs kwargs : Option Node) (w : Int) (fid joined : String)
        (rargs : List Rendered) (rkws star dstar : List String),
      getId func = .ok fid →
      parseNodeList args w = .ok rargs →
      parseKeywordList keywords w = .ok rkws →
      parseStarOpt "*" starargs w = .ok star →
      parseStarOpt "**" kwargs w = .ok dstar →
      pyJoinStrs ", " (rargs ++ rkws.map Rendered.str ++ star.map Rendered.str
        ++ dstar.map Rendered.str) = .ok joined →
      (handle_call func args keywords starargs kwargs w =
        .ok (.lines (if ((fid ++ "(" ++ joined ++ ")").length : Int) < w
          then [fid ++ "(" ++ joined ++ ")"]
          else (fid ++ "(") :: ((rargs ++ rkws.map Rendered.str ++ star.map Rendered.str
            ++ dstar.map Rendered.str).map (fun a => "    " ++ pyFormatR a ++ ",") ++ [")"]))) ∧
      ((handle_call func args keywords starargs kwargs w =
          .ok (.lines [fid ++ "(" ++ joined ++ ")"])) ↔
        ((fid ++ "(" ++ joined ++ ")").length : Int) < w))) ∧
    (∀ (opn cls : String) (items : List Node) (w : Int)
        (ritems : List Rendered) (joined : String),
      items ≠ [] →
      parseNodeList items w = .ok ritems →
      pyJoinStrs ", " ritems = .ok joined →
      (_handle_iterable opn cls items w =
        .ok (.lines (if ((opn ++ joined ++ cls).length : Int) < w
          then [opn ++ joined ++ cls]
          else opn :: (ritems.map (fun i => "    " ++ pyFormatR i ++ ",") ++ [cls]))) ∧
      ((_handle_iterable opn cls items w = .ok (.lines [opn ++ joined ++ cls])) ↔
        ((opn ++ joined ++ cls).length : Int) < w))) ∧
    (∀ (elts : List Node) (w : Int),
      handle_list elts w = _handle_iterable "[" "]" elts w ∧
      handle_tuple elts w = _handle_iterable "(" ")" elts w ∧
      handle_set elts w = _handle_iterable "\x7b" "\x7d" elts w) ∧
    (∀ (keys values : List Node) (w : Int) (items : List String),
      keys ≠ [] →
      parseDictItems keys values w = .ok items →
      (handle_dict keys values w =
        .ok (.lines (if (("\x7b" ++ String.intercalate ", " items ++ "\x7d").length : Int) < w
          then ["\x7b" ++ String.intercalate ", " items ++ "\x7d"]
          else "\x7b" :: (items.map (fun i => "    " ++ i ++ ",") ++ ["\x7d"]))) ∧
      ((handle_dict keys values w =
          .ok (.lines ["\x7b" ++ String.intercalate ", " items ++ "\x7d"])) ↔
        (("\x7b" ++ String.intercalate ", " items ++ "\x7d").length : Int) < w))) := by
  refine ⟨?_, ?_, ?_, ?_⟩
  · intro func args keywords starargs kwargs w fid joined rargs rkws star dstar
      h1 h2 h3 h4 h5 h6
    have hmain : handle_call func args keywords starargs kwargs w =
        .ok (.lines (if ((fid ++ "(" ++ joined ++ ")").length : Int) < w
          then [fid ++ "(" ++ joined ++ ")"]
          else (fid ++ "(") :: ((rargs ++ rkws.map Rendered.str ++ star.map Rendered.str
            ++ dstar.map Rendered.str).map (fun a => "    " ++ pyFormatR a ++ ",") ++ [")"]))) := by
      rw [handle_call]
      rw [h1, h2, h3, h4, h5]
      simp only [bind, Except.bind]
      rw [h6]
      simp only [bind, Except.bind]
      split <;> rfl
    refine ⟨hmain, ?_, ?_⟩
    · intro hres
      by_contra hlt
      rw [hmain, if_neg hlt] at hres
      have hlen := congrArg (fun r => match r with
        | Except.ok (Rendered.lines l) => l.length
        | _ => 0) hres
      simp at hlen
    · intro hlt
      rw [hmain, if_pos hlt]
  · intro opn cls items w ritems joined hne h1 h2
    have hmain : _handle_iterable opn cls items w =
        .ok (.lines (if ((opn ++ joined ++ cls).length : Int) < w
          then [opn ++ joined ++ cls]
          else opn :: (ritems.map (fun i => "    " ++ pyFormatR i ++ ",") ++ [cls]))) := by
      cases items with
      | nil => exact absurd rfl hne
      | cons i0 irest =>
        rw [_handle_iterable]
        rw [h1]
        simp only [bind, Except.bind]
        rw [h2]
        simp only [bind, Except.bind]
        split <;> rfl
    refine ⟨hmain, ?_, ?_⟩
    · intro hres
      by_contra hlt
      rw [hmain, if_neg hlt] at hres
      have hlen := congrArg (fun r => match r with
        | Except.ok (Rendered.lines l) => l.length
        | _ => 0) hres
      simp at hlen
    · intro hlt
      rw [hmain, if_pos hlt]
  · intro elts w
    exact ⟨by rw [handle_list], by rw [handle_tuple], by rw [handle_set]⟩
  · intro keys values w items hne h1
    have hmain : handle_dict keys values w =
        .ok (.lines (if (("\x7b" ++ String.intercalate ", " items ++ "\x7d").length : Int) < w
          then ["\x7b" ++ String.intercalate ", " items ++ "\x7d"]
          else "\x7b" :: (items.map (fun i => "    " ++ i ++ ",") ++ ["\x7d"]))) := by
      cases keys with
      | nil => exact absurd rfl hne
      | cons k0 krest =>
        rw [handle_dict]
        rw [h1]
        simp only [bind, Except.bind]
        split <;> rfl
    refine ⟨hmain, ?_, ?_⟩
    · intro hres
      by_contra hlt
      rw [hmain, if_neg hlt] at hres
      have hlen := congrArg (fun r => match r with
        | Except.ok (Rendered.lines l) => l.length
        | _ => 0) hres
      simp at hlen
    · intro hlt
      rw [hmain, if_pos hlt]

/-- Witness for C2: the call f(a, b) whose joined form "f(a, b)" has length
exactly 7 is expanded at width 7, and the list [11, 22] whose joined form
"[11, 22]" has length 8 is emitted on one line at width 9. -/
theorem spec_c2_witness :
    handle_call (.name "f") [.name "a", .name "b"] [] none none 7 =
      .ok (.lines ["f(", "    a,", "    b,", ")"]) ∧
    handle_list [.num 11, .num 22] 9 = .ok (.lines ["[11, 22]"]) := by
  have hgid : getId (Node.name "f") = .ok "f" := rfl
  have hargs : parseNodeList [Node.name "a", Node.name "b"] 7 =
      .ok [Rendered.str "a", Rendered.str "b"] := by
    simp [parseNodeList, parse, handle_name, Except.bind, bind, pure, Except.pure]
  have hkw : parseKeywordList [] 7 = .ok [] := by
    simp [parseKeywordList]
  have hs1 : parseStarOpt "*" (none : Option Node) 7 = .ok [] := by
    simp [parseStarOpt, pure, Except.pure]
  have hs2 : parseStarOpt "**" (none : Option Node) 7 = .ok [] := by
    simp [parseStarOpt, pure, Except.pure]
  have hjoin : pyJoinStrs ", " ([Rendered.str "a", Rendered.str "b"] ++
      List.map Rendered.str [] ++ List.map Rendered.str [] ++ List.map Rendered.str []) =
      .ok "a, b" := by
    simp [pyJoinStrs, renderedStr, List.mapM, List.mapM.loop, Except.bind, bind,
      Except.pure, pure]
    rfl
  have hc := (spec_c2.1 (Node.name "f") [Node.name "a", Node.name "b"] [] none none 7
    "f" "a, b" [Rendered.str "a", Rendered.str "b"] [] [] []
    hgid hargs hkw hs1 hs2 hjoin).1
  have hli : parseNodeList [Node.num 11, Node.num 22] 9 =
      .ok [Rendered.str "11", Rendered.str "22"] := by
    simp [parseNodeList, parse, handle_num, pyIntStr, natStrAux, digitChar,
      Except.bind, bind, pure, Except.pure]
  have hji : pyJoinStrs ", " [Rendered.str "11", Rendered.str "22"] = .ok "11, 22" := by
    simp [pyJoinStrs, renderedStr, List.mapM, List.mapM.loop, Except.bind, bind,
      Except.pure, pure]
    rfl
  have hit := (spec_c2.2.1 "[" "]" [Node.num 11, Node.num 22] 9
    [Rendered.str "11", Rendered.str "22"] "11, 22" (by simp) hli hji).1
  have hl2 := (spec_c2.2.2.1 [Node.num 11, Node.num 22] 9).1
  constructor
  · rw [hc]
    decide
  · rw [hl2, hit]
    decide

theorem parseDictItems_spec (w : Int) : ∀ (keys values : List Node) (items : List String),
    parseDictItems keys values w = .ok items →
    items.length = min keys.length values.length ∧
    ∀ (i : Nat) (hik : i < keys.length) (hiv : i < values.length),
      ∃ rk rv, parse (keys.get ⟨i, hik⟩) w = .ok rk ∧
        parse (values.get ⟨i, hiv⟩) w = .ok rv ∧
        ∃ hi : i < items.length,
          items.get ⟨i, hi⟩ = pyFormatR rk ++ ": " ++ pyFormatR rv := by
  intro keys
  induction keys with
  | nil =>
    intro values items h
    rw [parseDictItems] at h
    cases h
    exact ⟨by simp, fun i hik hiv => absurd hik (by simp)⟩
  | cons k ks ih =>
    intro values items h
    cases values with
    | nil =>
      rw [parseDictItems] at h
      cases h
      exact ⟨by simp, fun i hik hiv => absurd hiv (by simp)⟩
    | cons v vs =>
      rw [parseDictItems] at h
      cases hk : parse k w with
      | error e => rw [hk] at h; simp [bind, Except.bind] at h
      | ok rk =>
        rw [hk] at h
        simp only [bind, Except.bind] at h
        cases hv : parse v w with
        | error e => rw [hv] at h; simp [bind, Except.bind] at h
        | ok rv =>
          rw [hv] at h
          simp only [bind, Except.bind] at h
          cases hrest : parseDictItems ks vs w with
          | error e => rw [hrest] at h; simp [bind, Except.bind] at h
          | ok rest =>
            rw [hrest] at h
            simp only [bind, Except.bind, pure, Except.pure, Except.ok.injEq] at h
            subst h
            have hih := ih vs rest hrest
            constructor
            · simp only [List.length_cons, hih.1]
              omega
            · intro i hik hiv
              cases i with
              | zero =>
                exact ⟨rk, rv, hk, hv, by simp, by simp⟩
              | succ j =>
                obtain ⟨rk2, rv2, hk2, hv2, hj, hget⟩ :=
                  hih.2 j (by simpa using hik) (by simpa using hiv)
                exact ⟨rk2, rv2, hk2, hv2, by simpa using hj, by simpa using hget⟩

/-- C9.  Dict rendering preserves order: the item list built by handle_dict
pairs the i-th key with the i-th value, in exactly the order the key and
value lists carry, and both the joined single-line form and the expanded
multi-line form lay the items out in that same order, with no sorting. -/
theorem spec_c9 (keys values : List Node) (w : Int) (items : List String)
    (hitems : parseDictItems keys values w = .ok items) :
    items.length = min keys.length values.length ∧
    (∀ (i : Nat) (hik : i < keys.length) (hiv : i < values.length),
      ∃ rk rv, parse (keys.get ⟨i, hik⟩) w = .ok rk ∧
        parse (values.get ⟨i, hiv⟩) w = .ok rv ∧
        ∃ hi : i < items.length,
          items.get ⟨i, hi⟩ = pyFormatR rk ++ ": " ++ pyFormatR rv) ∧
    (keys ≠ [] → handle_dict keys values w =
      .ok (.lines (if (("\x7b" ++ String.intercalate ", " items ++ "\x7d").length : Int) < w
        then ["\x7b" ++ String.intercalate ", " items ++ "\x7d"]
        else "\x7b" :: (items.map (fun i => "    " ++ i ++ ",") ++ ["\x7d"])))) := by
  have hspec := parseDictItems_spec w keys values items hitems
  refine ⟨hspec.1, hspec.2, ?_⟩
  intro hne
  cases keys with
  | nil => exact absurd rfl hne
  | cons k0 krest =>
    rw [handle_dict]
    rw [hitems]
    simp only [bind, Except.bind]
    split <;> rfl

/-- Witness for C9: the dict with keys "b" then "a" keeps that order in the
rendered single line, unsorted. -/
theorem spec_c9_witness :
    parseDictItems [Node.str "b", Node.str "a"] [Node.num 1, Node.num 2] 79 =
      .ok ["\"b\": 1", "\"a\": 2"] ∧
    ([Node.str "b", Node.str "a"] : List Node) ≠ [] ∧
    handle_dict [Node.str "b", Node.str "a"] [Node.num 1, Node.num 2] 79 =
      .ok (.lines ["\x7b\"b\": 1, \"a\": 2\x7d"]) := by
  have hitems : parseDictItems [Node.str "b", Node.str "a"] [Node.num 1, Node.num 2] 79 =
      .ok ["\"b\": 1", "\"a\": 2"] := by
    simp [parseDictItems, parse, handle_str, handle_num, pyIntStr, natStrAux, digitChar,
      Except.bind, bind, pure, Except.pure, pyFormatR]
  have h := (spec_c9 [Node.str "b", Node.str "a"] [Node.num 1, Node.num 2] 79
    ["\"b\": 1", "\"a\": 2"] hitems).2.2 (by simp)
  refine ⟨hitems, by simp, ?_⟩
  rw [h]
  decide

/-- Position of the first non-whitespace character, as Python
re.search(r"\\S", line) finds it; None when the line is entirely whitespace. -/
def firstNonWsIdx (s : String) : Option Nat :=
  s.data.findIdx? (fun c => !(pyIsSpace c))

/-- Formatter.unindent (source lines 84-101): the indent is the column of
the first non-whitespace character of the first line; an empty input raises
IndexError at lines[0], a fully blank first line raises AttributeError on
the failed regex match, a zero indent returns the lines untouched, and
otherwise every line loses its first indent characters. -/
def unindent : List String → Except RErr (List String × Nat)
  | [] => .error .indexErr
  | l0 :: rest =>
    match firstNonWsIdx l0 with
    | none => .error .attributeErr
    | some indent =>
      if indent = 0 then .ok (l0 :: rest, 0)
      else .ok ((l0 :: rest).map (fun s => s.drop indent), indent)

/-- Formatter.reindent (source lines 103-111): prepend indent spaces to
every line; a zero indent is the identity. -/
def reindent (lines : List String) (indent : Nat) : List String :=
  if indent = 0 then lines
  else lines.map (fun s => String.mk (List.replicate indent ' ') ++ s)

/-- Failures of the external ast.parse: a clean SyntaxError for text that is
not valid code, or any other parser failure. -/
inductive PErr where
  | syntaxErr
  | otherErr
deriving DecidableEq, Repr

/-- Interface of the external collaborator ast.parse: the module body for
parsed text, or a failure.  The formatter consumes the parser as an opaque
oracle, so the driver is parameterised over it. -/
def Parser : Type :=
  String → Except PErr (List Node)

/-- Failures visible at the driver: a failure raised inside a Formatter
method, or a non-SyntaxError parser failure. -/
inductive DErr where
  | rend (e : RErr)
  | parserFail
deriving DecidableEq, Repr

/-- Inclusion of Formatter failures into driver failures. -/
def liftR {α : Type} : Except RErr α → Except DErr α
  | .ok r => .ok r
  | .error e => .error (.rend e)

/-- Node loop of Formatter.format (source lines 42-43): every parsed
statement is rendered and ret += extends the result, line by line for a
list and character by character for a str. -/
def renderBody : List Node → Int → Except RErr (List String)
  | [], _ => .ok []
  | n :: rest, w => do
    let r ← parse n w
    let more ← renderBody rest w
    pure (renderedToLines r ++ more)

/-- Block dispatch of Formatter.format (source lines 35-49): a block whose
first line is a comment is reflowed with the "# " token; otherwise the
joined block text goes to the parser, a SyntaxError falls back to reflow
with an empty token (the except SyntaxError arm; no Formatter method raises
SyntaxError, so only the parser can trigger it), any other parser failure
propagates, and a parsed body is rendered node by node. -/
def renderBlock (P : Parser) (block : List String) (w : Int) : Except DErr (List String) :=
  match block with
  | [] => .error (.rend .indexErr)
  | b0 :: _ =>
    if isCommentLine b0 then liftR (format_comments "# " block w)
    else
      match P (String.intercalate "\n" block) with
      | .error .syntaxErr => liftR (format_comments "" block w)
      | .error .otherErr => .error .parserFail
      | .ok body => liftR (renderBody body w)

/-- Block loop of Formatter.format: block results concatenate in order and
the first failure aborts the whole pipeline. -/
def renderBlocks (P : Parser) : List (List String) → Int → Except DErr (List String)
  | [], _ => .ok []
  | b :: rest, w => do
    let r ← renderBlock P b w
    let more ← renderBlocks P rest w
    pure (r ++ more)

/-- Body of the try block of Formatter.format (source lines 14-51): strip
the indent, reduce the width by it, segment, render every block in order,
and re-apply the indent. -/
def formatInner (P : Parser) (lines : List String) (width : Int) :
    Except DErr (List String) := do
  let di ← liftR (unindent lines)
  let ret ← renderBlocks P (segment di.1) (width - (di.2 : Int))
  pure (reindent ret di.2)

/-- Formatter.format (source lines 7-58): any exception raised anywhere in
the pipeline is caught by the top-level except and the original lines are
returned unchanged. -/
def format (P : Parser) (lines : List String) (width : Int) : List String :=
  match formatInner P lines width with
  | .ok r => r
  | .error _ => lines

/-- Statement kinds with no handle_ method in the Formatter. -/
def isUnhandledNode : Node → Bool
  | .other _ => true
  | _ => false

/-- Model of the external Python ast.parse restricted to the concrete
fragments appearing in the theorems below; each branch states what ast.parse
returns, or that it raises SyntaxError, on that exact text. -/
def testParse : Parser := fun s =>
  if s = "x = 12" then .ok [.assign [.name "x"] (.num 12)]
  else if s = "x = \"ab\"" then .ok [.assign [.name "x"] (.str "ab")]
  else if s = "x = \"\na\nb\n\"" then .error .syntaxErr
  else if s = "while x:\n    f()" then .ok [.other "While"]
  else if s = "x = f(1)" then
    .ok [.assign [.name "x"] (.call (.name "f") [.num 1] [] none none)]
  else .error .otherErr

theorem renderBody_err (w : Int) : ∀ (body : List Node),
    (∃ n ∈ body, isUnhandledNode n = true) →
    ∃ e, renderBody body w = .error e := by
  intro body
  induction body with
  | nil => intro h; obtain ⟨n, hn, hu⟩ := h; simp at hn
  | cons n rest ih =>
    intro h
    obtain ⟨m, hm, hu⟩ := h
    rw [List.mem_cons] at hm
    rcases hm with hm | hm
    · subst hm
      cases m with
      | other k =>
        refine ⟨.unhandled k, ?_⟩
        rw [renderBody]
        rw [show parse (Node.other k) w = .error (.unhandled k) from by rw [parse]]
        rfl
      | assign t v => simp [isUnhandledNode] at hu
      | call f a kw sa ka => simp [isUnhandledNode] at hu
      | num n => simp [isUnhandledNode] at hu
      | nameconstant v => simp [isUnhandledNode] at hu
      | expr v => simp [isUnhandledNode] at hu
      | dict k v => simp [isUnhandledNode] at hu
      | str s => simp [isUnhandledNode] at hu
      | name i => simp [isUnhandledNode] at hu
      | list e => simp [isUnhandledNode] at hu
      | tuple e => simp [isUnhandledNode] at hu
      | set e => simp [isUnhandledNode] at hu
      | importfrom m2 n2 => simp [isUnhandledNode] at hu
      | importStmt n2 => simp [isUnhandledNode] at hu
    · obtain ⟨e, he⟩ := ih ⟨m, hm, hu⟩
      cases hp : parse n w with
      | error e2 =>
        refine ⟨e2, ?_⟩
        rw [renderBody, hp]
        rfl
      | ok r =>
        refine ⟨e, ?_⟩
        rw [renderBody, hp]
        simp only [bind, Except.bind]
        rw [he]

theorem renderBlocks_err (P : Parser) (w : Int) : ∀ (blocks : List (List String))
    (b : List String), b ∈ blocks → (∃ e, renderBlock P b w = .error e) →
    ∃ e2, renderBlocks P blocks w = .error e2 := by
  intro blocks
  induction blocks with
  | nil => intro b hb; simp at hb
  | cons hd rest ih =>
    intro b hb herr
    rw [List.mem_cons] at hb
    rcases hb with hb | hb
    · subst hb
      obtain ⟨e, he⟩ := herr
      refine ⟨e, ?_⟩
      rw [renderBlocks, he]
      rfl
    · cases hh : renderBlock P hd w with
      | error e2 =>
        refine ⟨e2, ?_⟩
        rw [renderBlocks, hh]
        rfl
      | ok r =>
        obtain ⟨e2, he2⟩ := ih b hb herr
        refine ⟨e2, ?_⟩
        rw [renderBlocks, hh]
        simp only [bind, Except.bind]
        rw [he2]

/-- C1.  Any failure anywhere in the pipeline makes format return the
original input lines verbatim; in particular, whenever some code block of
the segmented input parses to a body containing a statement whose kind has
no handler, the whole output equals the input, line for line. -/
theorem spec_c1 (P : Parser) (lines : List String) (width : Int) :
    (∀ e, formatInner P lines width = .error e → format P lines width = lines) ∧
    (∀ (data : List String) (indent : Nat),
      unindent lines = .ok (data, indent) →
      ∀ block ∈ segment data,
        isCommentLine (block.headD "") = false →
        ∀ body, P (String.intercalate "\n" block) = .ok body →
        (∃ n ∈ body, isUnhandledNode n = true) →
        format P lines width = lines) := by
  constructor
  · intro e he
    simp [format, he]
  · intro data indent hud block hbmem hnc body hP hun
    have hrb : ∃ e, renderBlock P block (width - (indent : Int)) = .error e := by
      cases block with
      | nil => exact ⟨.rend .indexErr, rfl⟩
      | cons b0 rest =>
        have hb0 : isCommentLine b0 = false := by simpa using hnc
        obtain ⟨e, he⟩ := renderBody_err (width - (indent : Int)) body hun
        refine ⟨.rend e, ?_⟩
        rw [renderBlock, hb0]
        simp only [Bool.false_eq_true, if_false]
        rw [hP]
        simp [liftR, he]
    obtain ⟨e2, he2⟩ := renderBlocks_err P (width - (indent : Int)) (segment data) block hbmem hrb
    have hinner : formatInner P lines width = .error e2 := by
      rw [formatInner]
      rw [hud]
      simp only [liftR, bind, Except.bind]
      simp [bind, Except.bind, he2]
    simp [format, hinner]

/-- Witness for C1: a two-line while statement, a kind without a handler, is
passed through unchanged. -/
theorem spec_c1_witness :
    unindent ["while x:", "    f()"] = .ok (["while x:", "    f()"], 0) ∧
    ["while x:", "    f()"] ∈ segment ["while x:", "    f()"] ∧
    isCommentLine ((["while x:", "    f()"] : List String).headD "") = false ∧
    testParse (String.intercalate "\n" ["while x:", "    f()"]) = .ok [.other "While"] ∧
    (∃ n ∈ [Node.other "While"], isUnhandledNode n = true) ∧
    format testParse ["while x:", "    f()"] 79 = ["while x:", "    f()"] := by
  have h1 : unindent ["while x:", "    f()"] = .ok (["while x:", "    f()"], 0) := by
    simp [unindent, firstNonWsIdx]
    decide
  have h2 : ["while x:", "    f()"] ∈ segment ["while x:", "    f()"] := by
    have : segment ["while x:", "    f()"] = [["while x:", "    f()"]] := by decide
    rw [this]
    simp
  have h3 : isCommentLine ((["while x:", "    f()"] : List String).headD "") = false := by
    decide
  have h4 : testParse (String.intercalate "\n" ["while x:", "    f()"]) =
      .ok [.other "While"] := rfl
  have h5 : ∃ n ∈ [Node.other "While"], isUnhandledNode n = true :=
    ⟨Node.other "While", by simp, rfl⟩
  exact ⟨h1, h2, h3, h4, h5,
    (spec_c1 testParse ["while x:", "    f()"] 79).2 ["while x:", "    f()"] 0 h1
      ["while x:", "    f()"] h2 h3 [Node.other "While"] h4 h5⟩

theorem unindent_x12 : unindent ["x = 12"] = .ok (["x = 12"], 0) := by
  simp [unindent, firstNonWsIdx]
  decide

theorem renderBody_x12 :
    renderBody [Node.assign [Node.name "x"] (Node.num 12)] 79 = .ok ["x = 1", "2"] := by
  simp [renderBody, parse, handle_assign, assignFromRendered, handle_num, getId, pyIntStr,
    natStrAux, digitChar, renderedToLines, List.mapM, List.mapM.loop, Except.bind, bind,
    pure, Except.pure]
  decide

theorem renderBlock_x12 : renderBlock testParse ["x = 12"] 79 = .ok ["x = 1", "2"] := by
  rw [renderBlock]
  have hc : isCommentLine "x = 12" = false := by decide
  rw [hc]
  simp only [Bool.false_eq_true, if_false]
  rw [show testParse (String.intercalate "\n" ["x = 12"]) =
    .ok [Node.assign [Node.name "x"] (Node.num 12)] from rfl]
  simp [liftR, renderBody_x12]

/-- C6 evaluated at the failing input: the assignment "x = 12" is rendered
by the code as the two lines "x = 1" and "2", because handle_assign
subscripts the str returned by handle_num as value[0] and value[1:], rather
than appending the first line of the value rendering after " = " as the
claim states. -/
theorem spec_c6_eval :
    format testParse ["x = 12"] 79 = ["x = 1", "2"] ∧
    format testParse ["x = 12"] 79 ≠ ["x = 12"] := by
  have hw : (79 : Int) - ((0 : Nat) : Int) = 79 := by norm_num
  have hinner : formatInner testParse ["x = 12"] 79 = .ok ["x = 1", "2"] := by
    rw [formatInner, unindent_x12]
    simp only [liftR, bind, Except.bind]
    rw [show segment ["x = 12"] = [["x = 12"]] from by decide]
    rw [hw, renderBlocks, renderBlock_x12]
    simp [bind, Except.bind, renderBlocks, pure, Except.pure, reindent]
  refine ⟨by simp [format, hinner], ?_⟩
  simp [format, hinner]

theorem unindent_xab : unindent ["x = \"ab\""] = .ok (["x = \"ab\""], 0) := by
  simp [unindent, firstNonWsIdx]
  decide

theorem renderBody_xab :
    renderBody [Node.assign [Node.name "x"] (Node.str "ab")] 79 =
      .ok ["x = \"", "a", "b", "\""] := by
  simp [renderBody, parse, handle_assign, assignFromRendered, handle_str, getId,
    renderedToLines, List.mapM, List.mapM.loop, Except.bind, bind, pure, Except.pure]
  decide

theorem renderBlock_xab : renderBlock testParse ["x = \"ab\""] 79 =
    .ok ["x = \"", "a", "b", "\""] := by
  rw [renderBlock]
  have hc : isCommentLine "x = \"ab\"" = false := by decide
  rw [hc]
  simp only [Bool.false_eq_true, if_false]
  rw [show testParse (String.intercalate "\n" ["x = \"ab\""]) =
    .ok [Node.assign [Node.name "x"] (Node.str "ab")] from rfl]
  simp [liftR, renderBody_xab]

theorem renderBlock_second : renderBlock testParse ["x = \"", "a", "b", "\""] 79 =
    .ok ["x = \" a b \""] := by
  rw [renderBlock]
  have hc : isCommentLine "x = \"" = false := by decide
  rw [hc]
  simp only [Bool.false_eq_true, if_false]
  rw [show testParse (String.intercalate "\n" ["x = \"", "a", "b", "\""]) =
    .error .syntaxErr from rfl]
  have hfc : format_comments "" ["x = \"", "a", "b", "\""] 79 = .ok ["x = \" a b \""] := by
    decide
  simp [liftR, hfc]

/-- C8 evaluated at the failing input: formatting the assignment of a string
literal once splits the rendering into the four lines of a broken fragment;
formatting that output again hits a SyntaxError, falls back to prose reflow
and produces a single different line, so format is not idempotent at a fixed
width even though assignment and string literals are covered node kinds. -/
theorem spec_c8_eval :
    format testParse ["x = \"ab\""] 79 = ["x = \"", "a", "b", "\""] ∧
    format testParse (format testParse ["x = \"ab\""] 79) 79 = ["x = \" a b \""] ∧
    format testParse (format testParse ["x = \"ab\""] 79) 79 ≠
      format testParse ["x = \"ab\""] 79 := by
  have hw : (79 : Int) - ((0 : Nat) : Int) = 79 := by norm_num
  have hinner1 : formatInner testParse ["x = \"ab\""] 79 = .ok ["x = \"", "a", "b", "\""] := by
    rw [formatInner, unindent_xab]
    simp only [liftR, bind, Except.bind]
    rw [show segment ["x = \"ab\""] = [["x = \"ab\""]] from by decide]
    rw [hw, renderBlocks, renderBlock_xab]
    simp [bind, Except.bind, renderBlocks, pure, Except.pure, reindent]
  have hfmt1 : format testParse ["x = \"ab\""] 79 = ["x = \"", "a", "b", "\""] := by
    simp [format, hinner1]
  have hud2 : unindent ["x = \"", "a", "b", "\""] = .ok (["x = \"", "a", "b", "\""], 0) := by
    simp [unindent, firstNonWsIdx]
    decide
  have hinner2 : formatInner testParse ["x = \"", "a", "b", "\""] 79 =
      .ok ["x = \" a b \""] := by
    rw [formatInner, hud2]
    simp only [liftR, bind, Except.bind]
    rw [show segment ["x = \"", "a", "b", "\""] = [["x = \"", "a", "b", "\""]] from by decide]
    rw [hw, renderBlocks, renderBlock_second]
    simp [bind, Except.bind, renderBlocks, pure, Except.pure, reindent]
  have hfmt2 : format testParse ["x = \"", "a", "b", "\""] 79 = ["x = \" a b \""] := by
    simp [format, hinner2]
  refine ⟨hfmt1, ?_, ?_⟩
  · rw [hfmt1, hfmt2]
  · rw [hfmt1, hfmt2]
    decide

/-- Nonempty string whose first character is not whitespace. -/
def goodStr (s : String) : Bool :=
  match s.data with
  | [] => false
  | c :: _ => !pyIsSpace c

/-- Leading-whitespace column count of a line. -/
def leadingWsCount (s : String) : Nat :=
  (s.data.takeWhile pyIsSpace).length

/-- Head line of a rendered piece, when the piece is nonempty, is either the
empty line or starts with a non-whitespace character. -/
def pieceHead (ls : List String) : Prop :=
  ∀ l0 ∈ ls.head?, (l0 = "" ∨ goodStr l0 = true)

theorem goodStr_iff (s : String) :
    goodStr s = true ↔ ∃ c rest, s.data = c :: rest ∧ pyIsSpace c = false := by
  cases h : s.data with
  | nil => simp [goodStr, h]
  | cons c rest => simp [goodStr, h]

theorem goodStr_append (t u : String) (h : goodStr t = true) : goodStr (t ++ u) = true := by
  obtain ⟨c, rest, hd, hc⟩ := (goodStr_iff t).mp h
  exact (goodStr_iff _).mpr ⟨c, rest ++ u.data, by rw [String.data_append, hd]; simp, hc⟩

theorem goodStr_empty_append (u : String) (h : goodStr u = true) :
    goodStr ("" ++ u) = true := by
  obtain ⟨c, rest, hd, hc⟩ := (goodStr_iff u).mp h
  exact (goodStr_iff _).mpr ⟨c, rest, by rw [String.data_append, hd]; rfl, hc⟩

theorem pieceHead_nil : pieceHead [] := by
  intro l0 hl0
  simp at hl0

theorem pieceHead_append (a b : List String) (ha : pieceHead a) (hb : pieceHead b) :
    pieceHead (a ++ b) := by
  cases a with
  | nil => simpa using hb
  | cons x xs =>
    intro l0 hl0
    simp at hl0
    subst hl0
    exact ha x (by simp)

theorem revWord_good (a : Char) (as : List Char)
    (hinv : ∀ c ∈ a :: as, pyIsSpace c = false) :
    goodStr (String.mk (a :: as).reverse) = true := by
  cases hr : (a :: as).reverse with
  | nil => exact absurd hr (by simp)
  | cons c rest =>
    refine (goodStr_iff _).mpr ⟨c, rest, by simpa using hr, ?_⟩
    have hcmem : c ∈ (a :: as).reverse := by rw [hr]; exact List.mem_cons_self c rest
    exact hinv c (List.mem_reverse.mp hcmem)

theorem splitWordsAux_good : ∀ (cs acc : List Char), (∀ c ∈ acc, pyIsSpace c = false) →
    ∀ word ∈ splitWordsAux acc cs, goodStr word = true := by
  intro cs
  induction cs with
  | nil =>
    intro acc hinv word hw
    cases acc with
    | nil => simp only [splitWordsAux] at hw; simp at hw
    | cons a as =>
      simp only [splitWordsAux] at hw
      simp only [List.mem_singleton] at hw
      subst hw
      exact revWord_good a as hinv
  | cons c cs ih =>
    intro acc hinv word hw
    cases acc with
    | nil =>
      simp only [splitWordsAux] at hw
      by_cases hsp : pyIsSpace c = true
      · rw [if_pos hsp] at hw
        exact ih [] (by simp) word hw
      · rw [if_neg hsp] at hw
        refine ih [c] ?_ word hw
        intro x hx
        simp at hx
        subst hx
        simpa using hsp
    | cons a as =>
      simp only [splitWordsAux] at hw
      by_cases hsp : pyIsSpace c = true
      · rw [if_pos hsp] at hw
        rw [List.mem_cons] at hw
        rcases hw with hw | hw
        · subst hw
          exact revWord_good a as hinv
        · exact ih [] (by simp) word hw
      · rw [if_neg hsp] at hw
        refine ih (c :: a :: as) ?_ word hw
        intro x hx
        rw [List.mem_cons] at hx
        rcases hx with hx | hx
        · subst hx; simpa using hsp
        · exact hinv x hx

theorem splitWords_good (s : String) : ∀ word ∈ splitWords s, goodStr word = true :=
  splitWordsAux_good s.data [] (by simp)

theorem wrapAux_head (width : Int) (indent : String) : ∀ (ws : List String)
    (curLine : String) (curLen : Int),
    ∃ t tl, wrapAux width indent curLine curLen ws = (curLine ++ t) :: tl := by
  intro ws
  induction ws with
  | nil =>
    intro curLine curLen
    exact ⟨"", [], by rw [wrapAux, String.append_empty]⟩
  | cons w ws ih =>
    intro curLine curLen
    rw [wrapAux]
    split
    · obtain ⟨t, tl, hh⟩ := ih (curLine ++ " " ++ w) (curLen + 1 + (w.length : Int))
      refine ⟨" " ++ (w ++ t), tl, ?_⟩
      rw [hh]
      rw [String.append_assoc, String.append_assoc]
    · exact ⟨"", wrapAux width indent (indent ++ w)
        ((indent.length : Int) + (w.length : Int)) ws, by rw [String.append_empty]⟩

theorem wrapOut_pieceHead (w : Int) (token : String) (s : String)
    (htok : token = "" ∨ goodStr token = true) :
    pieceHead (if (wrapWords w token (splitWords s)).isEmpty then [""]
               else wrapWords w token (splitWords s)) := by
  cases hsw : splitWords s with
  | nil =>
    rw [wrapWords]
    intro l0 hl0
    simp at hl0
    subst hl0
    left
    rfl
  | cons w0 ws =>
    have hg0 : goodStr w0 = true := splitWords_good s w0 (by rw [hsw]; simp)
    rw [wrapWords]
    obtain ⟨t, tl, hh⟩ := wrapAux_head w token ws (token ++ w0)
      ((token.length : Int) + (w0.length : Int))
    rw [hh]
    have hgood : goodStr ((token ++ w0) ++ t) = true := by
      rcases htok with htok | htok
      · subst htok
        exact goodStr_append _ _ (goodStr_empty_append w0 hg0)
      · exact goodStr_append _ _ (goodStr_append _ _ htok)
    rw [if_neg (by simp)]
    intro l0 hl0
    simp at hl0
    subst hl0
    right
    exact hgood

theorem format_comments_pieceHead (token : String) (lines : List String) (w : Int)
    (out : List String) (htok : token = "" ∨ goodStr token = true)
    (hfc : format_comments token lines w = .ok out) : pieceHead out := by
  simp only [format_comments] at hfc
  by_cases hw : w ≤ 0
  · rw [if_pos hw] at hfc
    exact absurd hfc (by simp)
  · rw [if_neg hw] at hfc
    simp only [Except.ok.injEq] at hfc
    rw [← hfc]
    exact wrapOut_pieceHead w token _ htok

mutual

/-- Structural sanity that real ast output guarantees and the head-line
analysis relies on: every Name identifier is nonempty and starts with a
non-whitespace character, and every assignment carries at least one target. -/
def wfNode : Node → Bool
  | .assign ts v => !ts.isEmpty && wfNodeList ts && wfNode v
  | .call f args kws sa ka =>
      wfNode f && wfNodeList args && wfKwList kws && wfOptNode sa && wfOptNode ka
  | .num _ => true
  | .nameconstant _ => true
  | .expr v => wfNode v
  | .dict ks vs => wfNodeList ks && wfNodeList vs
  | .str _ => true
  | .name id => goodStr id
  | .list es => wfNodeList es
  | .tuple es => wfNodeList es
  | .set es => wfNodeList es
  | .importfrom _ _ => true
  | .importStmt _ => true
  | .other _ => true
termination_by n => sizeOf n

/-- Well-formedness of every node of a list. -/
def wfNodeList : List Node → Bool
  | [] => true
  | n :: ns => wfNode n && wfNodeList ns
termination_by ns => sizeOf ns

/-- Well-formedness of every keyword value. -/
def wfKwList : List (String × Node) → Bool
  | [] => true
  | (_, v) :: ks => wfNode v && wfKwList ks
termination_by ks => sizeOf ks

/-- Well-formedness of an optional node. -/
def wfOptNode : Option Node → Bool
  | none => true
  | some n => wfNode n
termination_by o => sizeOf o

end

theorem digitChar_not_space (d : Nat) (hd : d < 10) : pyIsSpace (digitChar d) = false := by
  interval_cases d <;> decide

theorem natStrAux_head : ∀ (fuel n : Nat) (c : Char) (cs : List Char),
    natStrAux fuel n = c :: cs → ∃ d, d < 10 ∧ c = digitChar d := by
  intro fuel
  induction fuel with
  | zero => intro n c cs h; simp [natStrAux] at h
  | succ f ih =>
    intro n c cs h
    rw [natStrAux] at h
    by_cases hn : n < 10
    · rw [if_pos hn] at h
      simp only [List.cons.injEq] at h
      exact ⟨n, hn, h.1.symm⟩
    · rw [if_neg hn] at h
      cases haux : natStrAux f (n / 10) with
      | nil =>
        rw [haux] at h
        simp only [List.nil_append, List.cons.injEq] at h
        exact ⟨n % 10, Nat.mod_lt n (by norm_num), h.1.symm⟩
      | cons c0 cs0 =>
        rw [haux] at h
        simp only [List.cons_append, List.cons.injEq] at h
        obtain ⟨d, hd, hc⟩ := ih (n / 10) c0 cs0 haux
        exact ⟨d, hd, by rw [← h.1, hc]⟩

theorem natStrAux_ne_nil (f n : Nat) : natStrAux (f + 1) n ≠ [] := by
  rw [natStrAux]
  by_cases hn : n < 10
  · rw [if_pos hn]; simp
  · rw [if_neg hn]; simp

theorem pyIntStr_good (k : Int) : goodStr (pyIntStr k) = true := by
  rw [pyIntStr]
  by_cases hk : k < 0
  · rw [if_pos hk]
    exact goodStr_append "-" _ (by decide)
  · rw [if_neg hk]
    cases haux : natStrAux (k.toNat + 1) k.toNat with
    | nil => exact absurd haux (natStrAux_ne_nil _ _)
    | cons c cs =>
      obtain ⟨d, hd, hc⟩ := natStrAux_head (k.toNat + 1) k.toNat c cs haux
      refine (goodStr_iff _).mpr ⟨c, cs, by simpa using haux, ?_⟩
      rw [hc]
      exact digitChar_not_space d hd

theorem pieceHead_str (s : String) (h : goodStr s = true) :
    pieceHead (renderedToLines (.str s)) := by
  obtain ⟨c, rest, hd, hc⟩ := (goodStr_iff s).mp h
  intro l0 hl0
  simp only [renderedToLines] at hl0
  rw [hd] at hl0
  simp at hl0
  subst hl0
  right
  exact (goodStr_iff _).mpr ⟨c, [], rfl, hc⟩

theorem pieceHead_lines_good (l0 : String) (tl : List String) (h : goodStr l0 = true) :
    pieceHead (renderedToLines (.lines (l0 :: tl))) := by
  intro x hx
  simp only [renderedToLines] at hx
  simp at hx
  subst hx
  right
  exact h

theorem getId_ok_name (f : Node) (i : String) (h : getId f = .ok i) : f = .name i := by
  cases f <;> simp [getId] at h
  rw [h]

theorem intercalate_go_shape : ∀ (as : List String) (acc sep : String),
    ∃ t, String.intercalate.go acc sep as = acc ++ t := by
  intro as
  induction as with
  | nil => intro acc sep; exact ⟨"", (String.append_empty acc).symm⟩
  | cons a as ih =>
    intro acc sep
    obtain ⟨t, ht⟩ := ih (acc ++ sep ++ a) sep
    refine ⟨sep ++ (a ++ t), ?_⟩
    rw [show String.intercalate.go acc sep (a :: as) =
      String.intercalate.go (acc ++ sep ++ a) sep as from rfl, ht]
    rw [String.append_assoc, String.append_assoc]

theorem intercalate_head_good (sep i0 : String) (irest : List String)
    (h : goodStr i0 = true) : goodStr (String.intercalate sep (i0 :: irest)) = true := by
  obtain ⟨t, ht⟩ := intercalate_go_shape irest i0 sep
  rw [show String.intercalate sep (i0 :: irest) = String.intercalate.go i0 sep irest from rfl]
  rw [ht]
  exact goodStr_append _ _ h

theorem targets_head_good (ts : List Node) (tids : List String)
    (hwl : wfNodeList ts = true) (hne : ts ≠ [])
    (hmap : ts.mapM getId = .ok tids) :
    ∃ i0 irest, tids = i0 :: irest ∧ goodStr i0 = true := by
  cases ts with
  | nil => exact absurd rfl hne
  | cons t0 trest =>
    rw [List.mapM_cons] at hmap
    cases hg : getId t0 with
    | error e => rw [hg] at hmap; simp [bind, Except.bind] at hmap
    | ok i0 =>
      rw [hg] at hmap
      simp only [bind, Except.bind] at hmap
      cases hrest : trest.mapM getId with
      | error e => rw [hrest] at hmap; simp at hmap
      | ok irest =>
        rw [hrest] at hmap
        simp only [pure, Except.pure, Except.ok.injEq] at hmap
        refine ⟨i0, irest, hmap.symm, ?_⟩
        have hname := getId_ok_name t0 i0 hg
        subst hname
        rw [wfNodeList] at hwl
        simp only [Bool.and_eq_true] at hwl
        have := hwl.1
        rw [wfNode] at this
        exact this

theorem importLines_pieceHead (module : Option String)
    (names : List (String × Option String)) : pieceHead (_handle_import module names) := by
  cases names with
  | nil => exact pieceHead_nil
  | cons nm rest =>
    intro l0 hl0
    simp only [_handle_import, List.map_cons, List.head?_cons, Option.mem_def,
      Option.some.injEq] at hl0
    subst hl0
    right
    cases module with
    | none =>
      rw [importModPart]
      exact goodStr_append _ _ (by decide)
    | some m =>
      rw [importModPart]
      by_cases hm : m = ""
      · rw [if_pos hm]
        exact goodStr_append _ _ (by decide)
      · rw [if_neg hm]
        have h1 : goodStr ("from " ++ m) = true := goodStr_append "from " m (by decide)
        exact goodStr_append _ _ (goodStr_append _ _ (goodStr_append _ _ h1))

theorem handle_assign_ok_head (ts : List Node) (v : Node) (w : Int) (r : Rendered)
    (hne : ts ≠ []) (hwl : wfNodeList ts = true)
    (hp : handle_assign ts v w = .ok r) :
    ∃ l0 tl, r = .lines (l0 :: tl) ∧ goodStr l0 = true := by
  rw [handle_assign] at hp
  cases hmap : ts.mapM getId with
  | error e => rw [hmap] at hp; simp [bind, Except.bind] at hp
  | ok tids =>
    rw [hmap] at hp
    simp only [bind, Except.bind] at hp
    cases hv : parse v w with
    | error e => rw [hv] at hp; simp at hp
    | ok rv =>
      rw [hv] at hp
      simp only [bind, Except.bind] at hp
      obtain ⟨i0, irest, htids, hgood⟩ := targets_head_good ts tids hwl hne hmap
      subst htids
      have hginter : goodStr (String.intercalate ", " (i0 :: irest)) = true :=
        intercalate_head_good ", " i0 irest hgood
      cases rv with
      | lines l =>
        cases l with
        | nil => rw [assignFromRendered] at hp; simp at hp
        | cons v0 vrest =>
          rw [assignFromRendered] at hp
          simp only [Except.ok.injEq] at hp
          refine ⟨_, vrest, hp.symm, ?_⟩
          exact goodStr_append _ _ (goodStr_append _ _ hginter)
      | str sv =>
        rw [assignFromRendered] at hp
        cases hsd : sv.data with
        | nil => rw [hsd] at hp; simp at hp
        | cons c cs =>
          rw [hsd] at hp
          simp only [Except.ok.injEq] at hp
          refine ⟨_, cs.map (fun ch => String.mk [ch]), hp.symm, ?_⟩
          exact goodStr_append _ _ (goodStr_append _ _ hginter)

theorem handle_call_ok_head (f : Node) (args : List Node)
    (kws : List (String × Node)) (sa ka : Option Node) (w : Int) (r : Rendered)
    (hwf : wfNode f = true)
    (hp : handle_call f args kws sa ka w = .ok r) :
    ∃ l0 tl, r = .lines (l0 :: tl) ∧ goodStr l0 = true := by
  rw [handle_call] at hp
  cases hg : getId f with
  | error e => rw [hg] at hp; simp [bind, Except.bind] at hp
  | ok fid =>
    have hname := getId_ok_name f fid hg
    subst hname
    rw [wfNode] at hwf
    rw [hg] at hp
    simp only [bind, Except.bind] at hp
    cases h2 : parseNodeList args w with
    | error e => rw [h2] at hp; simp at hp
    | ok rargs =>
      rw [h2] at hp
      simp only [bind, Except.bind] at hp
      cases h3 : parseKeywordList kws w with
      | error e => rw [h3] at hp; simp at hp
      | ok rkws =>
        rw [h3] at hp
        simp only [bind, Except.bind] at hp
        cases h4 : parseStarOpt "*" sa w with
        | error e => rw [h4] at hp; simp at hp
        | ok star =>
          rw [h4] at hp
          simp only [bind, Except.bind] at hp
          cases h5 : parseStarOpt "**" ka w with
          | error e => rw [h5] at hp; simp at hp
          | ok dstar =>
            rw [h5] at hp
            simp only [bind, Except.bind] at hp
            cases h6 : pyJoinStrs ", " (rargs ++ rkws.map Rendered.str
                ++ star.map Rendered.str ++ dstar.map Rendered.str) with
            | error e => rw [h6] at hp; simp at hp
            | ok joined =>
              rw [h6] at hp
              simp only [bind, Except.bind] at hp
              split at hp
              · simp only [pure, Except.pure, Except.ok.injEq] at hp
                refine ⟨_, [], hp.symm, ?_⟩
                exact goodStr_append _ _ (goodStr_append _ _ (goodStr_append _ _ hwf))
              · simp only [pure, Except.pure, Except.ok.injEq] at hp
                refine ⟨_, _, hp.symm, ?_⟩
                exact goodStr_append _ _ hwf

theorem handle_dict_ok_head (ks vs : List Node) (w : Int) (r : Rendered)
    (hp : handle_dict ks vs w = .ok r) :
    ∃ l0 tl, r = .lines (l0 :: tl) ∧ goodStr l0 = true := by
  cases ks with
  | nil =>
    rw [handle_dict] at hp
    simp only [Except.ok.injEq] at hp
    exact ⟨_, [], hp.symm, by decide⟩
  | cons k0 krest =>
    rw [handle_dict] at hp
    cases hi : parseDictItems (k0 :: krest) vs w with
    | error e => rw [hi] at hp; simp [bind, Except.bind] at hp
    | ok items =>
      rw [hi] at hp
      simp only [bind, Except.bind] at hp
      split at hp
      · simp only [pure, Except.pure, Except.ok.injEq] at hp
        refine ⟨_, [], hp.symm, ?_⟩
        exact goodStr_append _ _ (goodStr_append _ _ (by decide))
      · simp only [pure, Except.pure, Except.ok.injEq] at hp
        exact ⟨_, _, hp.symm, by decide⟩

theorem iterable_ok_head (opn cls : String) (items : List Node) (w : Int) (r : Rendered)
    (hopn : goodStr opn = true)
    (hp : _handle_iterable opn cls items w = .ok r) :
    ∃ l0 tl, r = .lines (l0 :: tl) ∧ goodStr l0 = true := by
  cases items with
  | nil =>
    rw [_handle_iterable] at hp
    simp only [Except.ok.injEq] at hp
    exact ⟨_, [], hp.symm, goodStr_append _ _ hopn⟩
  | cons i0 irest =>
    rw [_handle_iterable] at hp
    cases h2 : parseNodeList (i0 :: irest) w with
    | error e => rw [h2] at hp; simp [bind, Except.bind] at hp
    | ok ritems =>
      rw [h2] at hp
      simp only [bind, Except.bind] at hp
      cases h3 : pyJoinStrs ", " ritems with
      | error e => rw [h3] at hp; simp at hp
      | ok joined =>
        rw [h3] at hp
        simp only [bind, Except.bind] at hp
        split at hp
        · simp only [pure, Except.pure, Except.ok.injEq] at hp
          refine ⟨_, [], hp.symm, ?_⟩
          exact goodStr_append _ _ (goodStr_append _ _ hopn)
        · simp only [pure, Except.pure, Except.ok.injEq] at hp
          exact ⟨_, _, hp.symm, hopn⟩

theorem parse_headGood : ∀ (n : Node) (w : Int) (r : Rendered),
    wfNode n = true → parse n w = .ok r → pieceHead (renderedToLines r)
  | .num k, w, r, hwf, hp => by
      rw [parse, handle_num] at hp
      simp only [Except.ok.injEq] at hp
      subst hp
      exact pieceHead_str _ (pyIntStr_good k)
  | .nameconstant v, w, r, hwf, hp => by
      rw [parse, handle_nameconstant] at hp
      simp only [Except.ok.injEq] at hp
      subst hp
      exact pieceHead_str _ (by cases v <;> decide)
  | .str sv, w, r, hwf, hp => by
      rw [parse, handle_str] at hp
      simp only [Except.ok.injEq] at hp
      subst hp
      exact pieceHead_str _ (goodStr_append _ _ (goodStr_append _ _ (by decide)))
  | .name id, w, r, hwf, hp => by
      rw [parse, handle_name] at hp
      simp only [Except.ok.injEq] at hp
      subst hp
      rw [wfNode] at hwf
      exact pieceHead_str _ hwf
  | .expr v, w, r, hwf, hp => by
      rw [parse, handle_expr] at hp
      rw [wfNode] at hwf
      exact parse_headGood v w r hwf hp
  | .importStmt names, w, r, hwf, hp => by
      rw [parse, handle_import] at hp
      simp only [Except.ok.injEq] at hp
      subst hp
      simpa only [renderedToLines] using importLines_pieceHead none names
  | .importfrom m names, w, r, hwf, hp => by
      rw [parse, handle_importfrom] at hp
      simp only [Except.ok.injEq] at hp
      subst hp
      simpa only [renderedToLines] using importLines_pieceHead m names
  | .assign ts v, w, r, hwf, hp => by
      rw [parse] at hp
      rw [wfNode] at hwf
      simp only [Bool.and_eq_true] at hwf
      obtain ⟨l0, tl, hr, hgood⟩ := handle_assign_ok_head ts v w r
        (by simpa using hwf.1.1) hwf.1.2 hp
      subst hr
      exact pieceHead_lines_good l0 tl hgood
  | .call f args kws sa ka, w, r, hwf, hp => by
      rw [parse] at hp
      rw [wfNode] at hwf
      simp only [Bool.and_eq_true] at hwf
      obtain ⟨l0, tl, hr, hgood⟩ := handle_call_ok_head f args kws sa ka w r
        hwf.1.1.1.1 hp
      subst hr
      exact pieceHead_lines_good l0 tl hgood
  | .dict ks vs, w, r, hwf, hp => by
      rw [parse] at hp
      obtain ⟨l0, tl, hr, hgood⟩ := handle_dict_ok_head ks vs w r hp
      subst hr
      exact pieceHead_lines_good l0 tl hgood
  | .list es, w, r, hwf, hp => by
      rw [parse, handle_list] at hp
      obtain ⟨l0, tl, hr, hgood⟩ := iterable_ok_head "[" "]" es w r (by decide) hp
      subst hr
      exact pieceHead_lines_good l0 tl hgood
  | .tuple es, w, r, hwf, hp => by
      rw [parse, handle_tuple] at hp
      obtain ⟨l0, tl, hr, hgood⟩ := iterable_ok_head "(" ")" es w r (by decide) hp
      subst hr
      exact pieceHead_lines_good l0 tl hgood
  | .set es, w, r, hwf, hp => by
      rw [parse, handle_set] at hp
      obtain ⟨l0, tl, hr, hgood⟩ := iterable_ok_head "\x7b" "\x7d" es w r (by decide) hp
      subst hr
      exact pieceHead_lines_good l0 tl hgood
  | .other k, w, r, hwf, hp => by
      rw [parse] at hp
      simp at hp

/-- Well-formed parser oracle: every body the external parser delivers
consists of well-formed nodes, as real ast output does. -/
def WFParser (P : Parser) : Prop :=
  ∀ s body, P s = .ok body → ∀ n ∈ body, wfNode n = true

theorem renderBody_pieceHead (w : Int) : ∀ (body : List Node) (ret : List String),
    (∀ n ∈ body, wfNode n = true) → renderBody body w = .ok ret → pieceHead ret := by
  intro body
  induction body with
  | nil =>
    intro ret hwf h
    rw [renderBody] at h
    simp only [Except.ok.injEq] at h
    rw [← h]
    exact pieceHead_nil
  | cons n rest ih =>
    intro ret hwf h
    rw [renderBody] at h
    cases hp : parse n w with
    | error e => rw [hp] at h; simp [bind, Except.bind] at h
    | ok r =>
      rw [hp] at h
      simp only [bind, Except.bind] at h
      cases hm : renderBody rest w with
      | error e => rw [hm] at h; simp at h
      | ok more =>
        rw [hm] at h
        simp only [pure, Except.pure, Except.ok.injEq] at h
        rw [← h]
        exact pieceHead_append _ _ (parse_headGood n w r (hwf n (by simp)) hp)
          (ih more (fun m hm2 => hwf m (by simp [hm2])) hm)

theorem renderBlock_pieceHead (P : Parser) (hP : WFParser P) (block : List String)
    (w : Int) (out : List String) (h : renderBlock P block w = .ok out) :
    pieceHead out := by
  cases block with
  | nil => rw [renderBlock] at h; simp at h
  | cons b0 rest =>
    rw [renderBlock] at h
    by_cases hc : isCommentLine b0 = true
    · rw [if_pos hc] at h
      cases hf : format_comments "# " (b0 :: rest) w with
      | error e => rw [hf] at h; simp [liftR] at h
      | ok o =>
        rw [hf] at h
        simp only [liftR, Except.ok.injEq] at h
        rw [← h]
        exact format_comments_pieceHead "# " (b0 :: rest) w o (Or.inr (by decide)) hf
    · rw [if_neg hc] at h
      cases hPres : P (String.intercalate "\n" (b0 :: rest)) with
      | error pe =>
        rw [hPres] at h
        cases pe with
        | syntaxErr =>
          have h2 : liftR (format_comments "" (b0 :: rest) w) = Except.ok out := h
          cases hf : format_comments "" (b0 :: rest) w with
          | error e => rw [hf] at h2; simp [liftR] at h2
          | ok o =>
            rw [hf] at h2
            simp only [liftR, Except.ok.injEq] at h2
            rw [← h2]
            exact format_comments_pieceHead "" (b0 :: rest) w o (Or.inl rfl) hf
        | otherErr =>
          have h2 : (Except.error DErr.parserFail : Except DErr (List String)) =
            Except.ok out := h
          simp at h2
      | ok body =>
        rw [hPres] at h
        have h2 : liftR (renderBody body w) = Except.ok out := h
        cases hr : renderBody body w with
        | error e => rw [hr] at h2; simp [liftR] at h2
        | ok ret0 =>
          rw [hr] at h2
          simp only [liftR, Except.ok.injEq] at h2
          rw [← h2]
          exact renderBody_pieceHead w body ret0 (hP _ body hPres) hr

theorem renderBlocks_pieceHead (P : Parser) (hP : WFParser P) (w : Int) :
    ∀ (blocks : List (List String)) (out : List String),
    renderBlocks P blocks w = .ok out → pieceHead out := by
  intro blocks
  induction blocks with
  | nil =>
    intro out h
    rw [renderBlocks] at h
    simp only [Except.ok.injEq] at h
    rw [← h]
    exact pieceHead_nil
  | cons b rest ih =>
    intro out h
    rw [renderBlocks] at h
    cases hb : renderBlock P b w with
    | error e => rw [hb] at h; simp [bind, Except.bind] at h
    | ok r =>
      rw [hb] at h
      simp only [bind, Except.bind] at h
      cases hm : renderBlocks P rest w with
      | error e => rw [hm] at h; simp at h
      | ok more =>
        rw [hm] at h
        simp only [pure, Except.pure, Except.ok.injEq] at h
        rw [← h]
        exact pieceHead_append _ _ (renderBlock_pieceHead P hP b w r hb) (ih more hm)

theorem findIdx_aux : ∀ (l : List Char) (st i : Nat),
    List.findIdx? (fun c => !(pyIsSpace c)) l st = some i →
    st + (l.takeWhile pyIsSpace).length = i := by
  intro l
  induction l with
  | nil => intro st i h; simp [List.findIdx?] at h
  | cons c cs ih =>
    intro st i h
    rw [List.findIdx?] at h
    by_cases hc : pyIsSpace c = true
    · rw [hc] at h
      simp only [Bool.not_true, Bool.false_eq_true, if_false] at h
      have hih := ih (st + 1) i h
      rw [List.takeWhile_cons, hc]
      simp only [if_true, List.length_cons]
      omega
    · have hcf : pyIsSpace c = false := by simpa using hc
      rw [hcf] at h
      simp only [Bool.not_false, if_true, Option.some.injEq] at h
      rw [List.takeWhile_cons, hcf]
      simp [h]

theorem findIdx_leadingWs (l : List Char) (i : Nat)
    (h : l.findIdx? (fun c => !(pyIsSpace c)) = some i) :
    (l.takeWhile pyIsSpace).length = i := by
  have := findIdx_aux l 0 i h
  omega

theorem takeWhile_space_len (l0 : String) (h : l0 = "" ∨ goodStr l0 = true) :
    (l0.data.takeWhile pyIsSpace).length = 0 := by
  rcases h with h | h
  · subst h
    rfl
  · obtain ⟨c, rest, hd, hc⟩ := (goodStr_iff l0).mp h
    rw [hd, List.takeWhile_cons, hc]
    simp

theorem takeWhile_replicate_append (n : Nat) (l : List Char) :
    List.takeWhile pyIsSpace (List.replicate n ' ' ++ l) =
      List.replicate n ' ' ++ List.takeWhile pyIsSpace l := by
  induction n with
  | zero => simp
  | succ k ih =>
    simp only [List.replicate_succ, List.cons_append, List.takeWhile_cons]
    rw [show pyIsSpace ' ' = true from by decide]
    simp [ih]

theorem reindent_head (l0 : String) (tl : List String) (indent : Nat)
    (hgood : l0 = "" ∨ goodStr l0 = true) :
    leadingWsCount ((reindent (l0 :: tl) indent).headD "") = indent := by
  rw [reindent]
  by_cases hi : indent = 0
  · rw [if_pos hi, hi]
    simp only [List.headD_cons]
    rw [leadingWsCount]
    exact takeWhile_space_len l0 hgood
  · rw [if_neg hi]
    simp only [List.map_cons, List.headD_cons]
    rw [leadingWsCount]
    rw [show (String.mk (List.replicate indent ' ') ++ l0).data =
      List.replicate indent ' ' ++ l0.data from by rw [String.data_append]]
    rw [takeWhile_replicate_append]
    simp [takeWhile_space_len l0 hgood]

theorem unindent_ok_shape (lines data : List String) (indent : Nat)
    (h : unindent lines = .ok (data, indent)) :
    ∃ l0 rest, lines = l0 :: rest ∧ firstNonWsIdx l0 = some indent := by
  cases lines with
  | nil => rw [unindent] at h; simp at h
  | cons l0 rest =>
    rw [unindent] at h
    cases hf : firstNonWsIdx l0 with
    | none =>
      rw [hf] at h
      have h2 : (Except.error RErr.attributeErr : Except RErr (List String × Nat)) =
        Except.ok (data, indent) := h
      simp at h2
    | some i =>
      rw [hf] at h
      refine ⟨l0, rest, rfl, ?_⟩
      have h2 : (if i = 0 then (Except.ok ((l0 :: rest), 0) : Except RErr (List String × Nat))
          else Except.ok ((l0 :: rest).map (fun s => s.drop i), i)) =
          Except.ok (data, indent) := h
      split at h2
      next h0 =>
        injection h2 with h1
        injection h1 with hdata hind
        rw [hf, h0, hind]
      next h0 =>
        injection h2 with h1
        injection h1 with hdata hind
        rw [hf, hind]

/-- C4.  The indent round-trips: for every parser oracle delivering
well-formed syntax trees, whenever the formatted output is nonempty, the
leading-whitespace column count of its first line equals the
leading-whitespace column count of the first input line — on the failure
path because the input is returned verbatim, and on the success path because
the stripped indent is re-applied to a first output line that is empty or
starts with a non-whitespace character. -/
theorem spec_c4 (P : Parser) (lines : List String) (width : Int)
    (hwf : WFParser P) (hne : format P lines width ≠ []) :
    leadingWsCount ((format P lines width).headD "") =
      leadingWsCount (lines.headD "") := by
  cases hfi : formatInner P lines width with
  | error e => simp [format, hfi]
  | ok ret =>
    have hfmt : format P lines width = ret := by simp [format, hfi]
    rw [hfmt] at hne ⊢
    rw [formatInner] at hfi
    cases hud : unindent lines with
    | error e => rw [hud] at hfi; simp [liftR, bind, Except.bind] at hfi
    | ok di =>
      rw [hud] at hfi
      simp only [liftR, bind, Except.bind] at hfi
      cases hrb : renderBlocks P (segment di.1) (width - (di.2 : Int)) with
      | error e => rw [hrb] at hfi; simp at hfi
      | ok ret0 =>
        rw [hrb] at hfi
        simp only [pure, Except.pure, Except.ok.injEq] at hfi
        obtain ⟨l0in, restin, hlines, hfnw⟩ := unindent_ok_shape lines di.1 di.2 hud
        have hph : pieceHead ret0 :=
          renderBlocks_pieceHead P hwf (width - (di.2 : Int)) (segment di.1) ret0 hrb
        have hret0ne : ret0 ≠ [] := by
          intro h0
          rw [h0] at hfi
          have hre : ret = [] := by
            rw [← hfi]
            rw [reindent]
            split <;> simp
          exact hne hre
        obtain ⟨l0, tl, hret0⟩ : ∃ l0 tl, ret0 = l0 :: tl := by
          cases ret0 with
          | nil => exact absurd rfl hret0ne
          | cons a b => exact ⟨a, b, rfl⟩
        have hgood : l0 = "" ∨ goodStr l0 = true := hph l0 (by rw [hret0]; simp)
        rw [← hfi, hret0]
        rw [reindent_head l0 tl di.2 hgood]
        rw [hlines]
        simp only [List.headD_cons]
        exact (findIdx_leadingWs l0in.data di.2 hfnw).symm

theorem testParse_wf : WFParser testParse := by
  intro s body h n hn
  rw [testParse] at h
  split at h
  · simp only [Except.ok.injEq] at h
    rw [← h] at hn
    simp only [List.mem_singleton] at hn
    subst hn
    simp [wfNode, wfNodeList, goodStr]
    decide
  · split at h
    · simp only [Except.ok.injEq] at h
      rw [← h] at hn
      simp only [List.mem_singleton] at hn
      subst hn
      simp [wfNode, wfNodeList, goodStr]
      decide
    · split at h
      · simp at h
      · split at h
        · simp only [Except.ok.injEq] at h
          rw [← h] at hn
          simp only [List.mem_singleton] at hn
          subst hn
          simp [wfNode]
        · split at h
          · simp only [Except.ok.injEq] at h
            rw [← h] at hn
            simp only [List.mem_singleton] at hn
            subst hn
            simp [wfNode, wfNodeList, wfKwList, wfOptNode, goodStr]
            decide
          · simp at h

theorem renderBody_xf1 :
    renderBody [Node.assign [Node.name "x"]
      (Node.call (Node.name "f") [Node.num 1] [] none none)] 77 =
      .ok ["x = f(1)"] := by
  simp [renderBody, parse, handle_assign, assignFromRendered, handle_call, handle_num,
    handle_name, getId, pyIntStr, natStrAux, digitChar, renderedToLines,
    parseNodeList, parseKeywordList, parseStarOpt, pyJoinStrs, renderedStr,
    List.mapM, List.mapM.loop, Except.bind, bind, pure, Except.pure]
  decide

/-- Witness for C4 at a concrete indented input: the call assignment indented
by two columns formats to itself and keeps its two leading spaces. -/
theorem spec_c4_witness :
    WFParser testParse ∧
    format testParse ["  x = f(1)"] 79 ≠ [] ∧
    leadingWsCount ((format testParse ["  x = f(1)"] 79).headD "") =
      leadingWsCount ((["  x = f(1)"] : List String).headD "") := by
  have hud : unindent ["  x = f(1)"] = .ok (["x = f(1)"], 2) := by
    decide
  have hblock : renderBlock testParse ["x = f(1)"] 77 = .ok ["x = f(1)"] := by
    rw [renderBlock]
    have hc : isCommentLine "x = f(1)" = false := by decide
    rw [hc]
    simp only [Bool.false_eq_true, if_false]
    rw [show testParse (String.intercalate "\n" ["x = f(1)"]) =
      .ok [Node.assign [Node.name "x"]
        (Node.call (Node.name "f") [Node.num 1] [] none none)] from rfl]
    simp [liftR, renderBody_xf1]
  have hw : (79 : Int) - ((2 : Nat) : Int) = 77 := by norm_num
  have hinner : formatInner testParse ["  x = f(1)"] 79 = .ok ["  x = f(1)"] := by
    rw [formatInner, hud]
    simp only [liftR, bind, Except.bind]
    rw [show segment ["x = f(1)"] = [["x = f(1)"]] from by decide]
    rw [hw, renderBlocks, hblock]
    simp only [bind, Except.bind]
    rw [renderBlocks]
    simp [pure, Except.pure, reindent]
  have hfmt : format testParse ["  x = f(1)"] 79 = ["  x = f(1)"] := by
    simp [format, hinner]
  refine ⟨testParse_wf, by rw [hfmt]; simp, ?_⟩
  exact spec_c4 testParse ["  x = f(1)"] 79 testParse_wf (by rw [hfmt]; simp)

end Charmer
